import Mathlib

/-!
# Verification of the Index-Hash-Table allocator

Shallow embedding of the paged index/slot allocator from the repository
(`index_bucket` and `index_table`).  The embedding follows the unnamed
header variant of the source (the one the specification describes: it
keeps a `bucket_hiindex` high-water mark, pushes freed bucket indices in
both removal paths, and converts in-bucket offsets to global identifiers
in `insert`, `gett` and `removet`).  Divergences of the second header
variant are discussed where relevant.

Modelling conventions:
* `T` is the stored value type (`DecidableEq`), `t0` stands for the
  C++ value-initialised sentinel `T()`, and `S` is the bucket capacity
  template parameter.
* `std::vector`/arrays become `List`s, the `std::stack` of freed bucket
  indices becomes a `List Int` whose head is the stack top.
* `size_t` arithmetic on the fill counter is modelled as `Nat` with an
  explicit wrap at `2^64` (`uadd1`, `usub1`), because the source can
  decrement a zero fill counter.
* the mixed `int32_t`/`size_t` comparisons and divisions of
  `removei`/`geti` convert the signed index to its unsigned 64-bit
  value first; `toU64` models that conversion.
* every store or return of a 64-bit quantity into an `int32_t` — the
  `std::distance` results of `get_index`/`item`, the global
  identifiers returned by `insert`/`removet`/`gett`, and `count`'s
  `int` accumulator — narrows to a signed 32-bit value; `toI32` models
  that narrowing (with one documented exception inside
  `index_bucket.remove`).
* `std::find_if` over a range becomes `List.findIdx?` (iterator
  position) or `List.findIdx` (via `std::distance`).
-/

/-- Unsigned 64-bit increment of a `size_t` counter (`filled++`). -/
def uadd1 (n : Nat) : Nat := (n + 1) % 2 ^ 64

/-- Unsigned 64-bit decrement of a `size_t` counter (`filled--`);
wraps to `2^64 - 1` when the counter is zero. -/
def usub1 (n : Nat) : Nat := (n + (2 ^ 64 - 1)) % 2 ^ 64

/-- The unsigned 64-bit value of a signed integer: the C++ conversion
applied when an `int32_t` meets a `size_t` in `index / S`, `index % S`
and `bucket_index == index / S`. -/
def toU64 (i : Int) : Nat := (i.emod (2 ^ 64)).toNat

/-- The signed 32-bit value of an integer: the C++ narrowing conversion
applied when a 64-bit quantity (a `std::distance` result or a `size_t`
sum) is stored into or returned as an `int32_t` — two's complement,
i.e. reduction modulo `2^32` into `[-2^31, 2^31)`. -/
def toI32 (i : Int) : Int := (i + 2 ^ 31).emod (2 ^ 32) - 2 ^ 31

/-- One fixed-capacity bucket: `S` value slots, a fill counter
(`size_t filled`) and the bucket's identifier (`int32_t bucket_index`). -/
structure index_bucket (T : Type) where
  items : List T
  filled : Nat
  bucket_index : Int
deriving DecidableEq

namespace index_bucket

variable {T : Type} [DecidableEq T]

/-- The constructor `index_bucket(size_t bucket_index)`: all `S` slots
filled with `T()` and `filled = 0`. -/
def init (S : Nat) (t0 : T) (bindex : Int) : index_bucket T :=
  { items := List.replicate S t0, filled := 0, bucket_index := bindex }

/-- Models `get_index()`: position of the first slot equal to `T()`,
else `-1`.  The `std::distance` result is stored into an `int32_t`
(narrowed by `toI32`), and the comparison `index != S` converts that
`int32_t` back to `size_t` (`toU64`). -/
def get_index (S : Nat) (t0 : T) (b : index_bucket T) : Int :=
  let index : Int := toI32 (b.items.findIdx fun itm => decide (itm = t0) : Nat)
  if toU64 index ≠ S then index else -1

/-- Models `item(T item)`: position of the first slot equal to `item`,
else `-1`.  As in `get_index`, the `std::distance` result is narrowed
to `int32_t` and compared with `S` as `size_t`. -/
def item (S : Nat) (b : index_bucket T) (itm : T) : Int :=
  let index : Int := toI32 (b.items.findIdx fun x => decide (x = itm) : Nat)
  if toU64 index ≠ S then index else -1

/-- Models `insert(T item)`: writes `item` into the first free slot and bumps
`filled` when such a slot exists; returns the in-bucket position found
by `get_index()` (possibly `-1`).  `get_index` already narrowed the
position to `int32_t`, which lies in `[-2^31, 2^31)`; on that range the
source's unsigned comparison `index < S` agrees with the signed one
written here, because a negative `index` already fails `index >= 0`. -/
def insert (S : Nat) (t0 : T) (b : index_bucket T) (itm : T) :
    index_bucket T × Int :=
  let index := get_index S t0 b
  if 0 ≤ index ∧ index < (S : Int) then
    ({ b with items := b.items.set index.toNat itm, filled := uadd1 b.filled },
     index)
  else
    (b, index)

/-- Models `remove(T item)`.  The source guards the store and the decrement
only with `index >= 0`, which is always true (`std::distance` of a
`find_if` result is in `[0, S]`), so both the store and the decrement
also run when the item is absent (`index = S`).  In that case the C++
stores to `items[S]`, one past the array — undefined behaviour that a
shallow embedding cannot express; `List.set` at position `S` leaves the
slots unchanged, while the counter decrement (the observable part) is
modelled exactly, including the `size_t` wrap-around.  The `int32_t`
narrowing of the stored distance is kept out of `remove` and left as the
exact distance: the two differ only when the scan runs past slot `2^31`,
i.e. for capacities `S > 2^31`, where the absent case has already
invoked the out-of-bounds store this model cannot express. -/
def remove (S : Nat) (t0 : T) (b : index_bucket T) (itm : T) :
    index_bucket T × Int :=
  let index : Int := (b.items.findIdx fun src => decide (src = itm) : Nat)
  let b' :=
    if 0 ≤ index then
      { b with items := b.items.set index.toNat t0, filled := usub1 b.filled }
    else b
  (b', if index ≠ (S : Int) then index else -1)

end index_bucket

/-- The table: the vector of buckets, the stack of freed bucket indices
(head = top) and the high-water mark of assigned bucket indices. -/
structure index_table (T : Type) where
  buckets : List (index_bucket T)
  empty : List Int
  bucket_hiindex : Int
deriving DecidableEq

namespace index_table

variable {T : Type} [DecidableEq T]

/-- A placeholder bucket used where the C++ dereferences a pointer that
is provably valid (`getD` never actually falls back to it in the proofs
below). -/
def dummy_bucket : index_bucket T :=
  { items := [], filled := 0, bucket_index := -1 }

/-- Models `bucket()`: creates a new bucket, reusing the top of the freed-index
stack if possible, else `bucket_hiindex + 1` (or `0` when no buckets
exist), and appends it to the vector.  Returns the updated table and the
position of the new bucket in the vector. -/
def bucket (S : Nat) (t0 : T) (tb : index_table T) : index_table T × Nat :=
  match tb.empty with
  | bindex :: rest =>
      ({ tb with empty := rest,
                 buckets := tb.buckets ++ [index_bucket.init S t0 bindex] },
       tb.buckets.length)
  | [] =>
      if 0 < tb.buckets.length then
        ({ tb with bucket_hiindex := tb.bucket_hiindex + 1,
                   buckets := tb.buckets ++
                     [index_bucket.init S t0 (tb.bucket_hiindex + 1)] },
         tb.buckets.length)
      else
        ({ tb with buckets := tb.buckets ++ [index_bucket.init S t0 0] },
         tb.buckets.length)

/-- Models `first()`: position of the first bucket with `filled < S`, else none. -/
def first (S : Nat) (tb : index_table T) : Option Nat :=
  tb.buckets.findIdx? fun b => decide (b.filled < S)

/-- The constructor loop body iterated: `cache` calls of `bucket()`. -/
def initAux (S : Nat) (t0 : T) : Nat → index_table T → index_table T
  | 0, tb => tb
  | n + 1, tb => initAux S t0 n (bucket S t0 tb).1

/-- Models the constructor `index_table(int32_t cache)`: starts from no buckets, an empty freed
stack and `bucket_hiindex = 0`, then calls `bucket()` `cache` times
(zero times when `cache` is not positive). -/
def init (S : Nat) (t0 : T) (cache : Int) : index_table T :=
  initAux S t0 cache.toNat
    { buckets := [], empty := [], bucket_hiindex := 0 }

/-- Models `count()`: accumulated fill counters of all buckets.  The
source's `std::accumulate` starts from the `int` literal `0`, so every
step stores the `size_t` sum `val + filled` back into an `int`
accumulator (`toI32`; exact, since the unsigned intermediate agrees
with the integer sum modulo `2^32`), and the final `int` converts to
the returned `size_t` (`toU64`). -/
def count (tb : index_table T) : Nat :=
  toU64 (tb.buckets.foldl (fun val b => toI32 (val + (b.filled : Int))) 0)

/-- Models `insert(T item)`: first bucket with room, else a fresh bucket; the
bucket-local position plus `bucket_index * S` is the returned global
identifier.  The sum is computed through `size_t` conversions and then
narrowed to the returned `int32_t`; every unsigned intermediate agrees
with the exact integer sum modulo `2^32`, so a single final `toI32` of
the exact sum is the value the source returns. -/
def insert (S : Nat) (t0 : T) (tb : index_table T) (itm : T) :
    index_table T × Int :=
  match first S tb with
  | some pos =>
      let bckt := tb.buckets.getD pos (dummy_bucket)
      let r := index_bucket.insert S t0 bckt itm
      ({ tb with buckets := tb.buckets.set pos r.1 },
       toI32 (r.2 + bckt.bucket_index * S))
  | none =>
      let p := bucket S t0 tb
      let bckt := p.1.buckets.getD p.2 (dummy_bucket)
      let r := index_bucket.insert S t0 bckt itm
      ({ p.1 with buckets := p.1.buckets.set p.2 r.1 },
       toI32 (r.2 + bckt.bucket_index * S))

/-- Models `removet(T item)`: first bucket whose `item()` scan finds `itm`; the
removal position plus `bucket_index * S` is returned — stored into an
`int32_t`, hence narrowed by `toI32` exactly as in `insert` — and a
drained bucket is erased with its index pushed on the freed stack.
(The source's `bckt != nullptr` check is always true for a vector
element.) -/
def removet (S : Nat) (t0 : T) (tb : index_table T) (itm : T) :
    index_table T × Int :=
  match tb.buckets.findIdx? (fun b => decide (index_bucket.item S b itm ≠ -1)) with
  | none => (tb, -1)
  | some pos =>
      let bckt := tb.buckets.getD pos (dummy_bucket)
      let r := index_bucket.remove S t0 bckt itm
      let index := toI32 (r.2 + bckt.bucket_index * S)
      if r.1.filled ≤ 0 then
        ({ tb with buckets := tb.buckets.eraseIdx pos,
                   empty := bckt.bucket_index :: tb.empty }, index)
      else
        ({ tb with buckets := tb.buckets.set pos r.1 }, index)

/-- Models `removei(int32_t index)`: first bucket whose identifier equals the
(unsigned) quotient `index / S`; reads the slot at `index % S`, removes
that value via the bucket's value-based removal, erases the bucket when
drained, and returns the read value.  (`bckt != nullptr` is always
true.) -/
def removei (S : Nat) (t0 : T) (tb : index_table T) (index : Int) :
    index_table T × T :=
  match tb.buckets.findIdx?
      (fun b => decide (toU64 b.bucket_index = toU64 index / S)) with
  | none => (tb, t0)
  | some pos =>
      let bckt := tb.buckets.getD pos (dummy_bucket)
      let itm := bckt.items.getD (toU64 index % S) t0
      let r := index_bucket.remove S t0 bckt itm
      if r.1.filled ≤ 0 then
        ({ tb with buckets := tb.buckets.eraseIdx pos,
                   empty := bckt.bucket_index :: tb.empty }, itm)
      else
        ({ tb with buckets := tb.buckets.set pos r.1 }, itm)

/-- Models `gett(T item)`: first bucket whose `item()` scan finds `itm`; the
in-bucket position plus `bucket_index * S` is the returned global
identifier — narrowed to the returned `int32_t` by `toI32`, exactly as
in `insert` — else `-1`. -/
def gett (S : Nat) (t0 : T) (tb : index_table T) (itm : T) : Int :=
  match tb.buckets.findIdx? (fun b => decide (index_bucket.item S b itm ≠ -1)) with
  | none => -1
  | some pos =>
      let bckt := tb.buckets.getD pos (dummy_bucket)
      toI32 (index_bucket.item S bckt itm + bckt.bucket_index * S)

/-- Models `geti(int32_t index)`: first bucket whose identifier equals the
(unsigned) quotient `index / S`; returns the slot at `index % S`, else
`T()`. -/
def geti (S : Nat) (t0 : T) (tb : index_table T) (index : Int) : T :=
  match tb.buckets.findIdx?
      (fun b => decide (toU64 b.bucket_index = toU64 index / S)) with
  | none => t0
  | some pos =>
      (tb.buckets.getD pos (dummy_bucket)).items.getD (toU64 index % S) t0

end index_table

/-!
## Specification-side definitions

The notions the claims quantify over: the number of non-sentinel slots
of a bucket, well-formedness of a table state, the table obtained by a
sequence of insertions, and the compact `cache`-bucket tables produced
by the constructor.
-/

/-- Number of slots of `l` holding a value different from the sentinel. -/
def countNE {T : Type} [DecidableEq T] (t0 : T) (l : List T) : Nat :=
  l.countP fun x => decide (x ≠ t0)

/-- Well-formedness of one bucket: `S` slots, a fill counter that counts
the non-sentinel slots, and a bucket identifier in `[0, hi]`. -/
def index_bucket.wfb {T : Type} [DecidableEq T] (S : Nat) (t0 : T) (hi : Int)
    (b : index_bucket T) : Prop :=
  b.items.length = S ∧ b.filled = countNE t0 b.items ∧
    0 ≤ b.bucket_index ∧ b.bucket_index ≤ hi

/-- Well-formedness of a table state: every bucket is well formed, live
bucket identifiers are distinct, freed identifiers are in range and not
live, and the high-water mark is a valid `int32` value. -/
def index_table.wf {T : Type} [DecidableEq T] (S : Nat) (t0 : T)
    (tb : index_table T) : Prop :=
  (∀ b ∈ tb.buckets, index_bucket.wfb S t0 tb.bucket_hiindex b) ∧
  (tb.buckets.map index_bucket.bucket_index).Nodup ∧
  (∀ e ∈ tb.empty, 0 ≤ e ∧ e ≤ tb.bucket_hiindex ∧
      e ∉ tb.buckets.map index_bucket.bucket_index) ∧
  0 ≤ tb.bucket_hiindex ∧ tb.bucket_hiindex < 2 ^ 31

/-- The table holding `k` freshly constructed buckets with identifiers
`0, …, k-1`: the shape produced by the constructor's pre-allocation. -/
def rangeTable {T : Type} [DecidableEq T] (S : Nat) (t0 : T) (k : Nat) :
    index_table T :=
  { buckets := (List.range k).map fun i : Nat => index_bucket.init S t0 (i : Int),
    empty := [],
    bucket_hiindex := if k = 0 then 0 else ((k - 1 : Nat) : Int) }

/-- Iterated insertion (used to state the compactness claim). -/
def insertList {T : Type} [DecidableEq T] (S : Nat) (t0 : T)
    (tb : index_table T) : List T → index_table T
  | [] => tb
  | v :: vs => insertList S t0 (index_table.insert S t0 tb v).1 vs

/-- The fill-counter shape of a table reached by `n` insertions into an
initially empty table and no removals: `n / S` full buckets followed by
one bucket with `n % S` items when `n` is not a multiple of `S`. -/
def fillShape {T : Type} [DecidableEq T] (S : Nat) (t0 : T) (n : Nat)
    (tb : index_table T) : Prop :=
  tb.empty = [] ∧
  (∀ b ∈ tb.buckets, b.items.length = S ∧ b.filled = countNE t0 b.items) ∧
  tb.buckets.map index_bucket.filled =
    List.replicate (n / S) S ++ (if n % S = 0 then [] else [n % S])

/-- A reachable table state of `index_table<int, 3>` in which the
fill-counter corruption of `removei` has occurred: the single bucket
holds the three values 5, 6, 7 but its fill counter is 2 (the `removei`
at the empty slot 2 decremented `filled` without vacating a slot). -/
def c1tab : index_table Int :=
  let s0 := index_table.init 3 (0 : Int) 0
  let s1 := (index_table.insert 3 0 s0 5).1
  let s2 := (index_table.insert 3 0 s1 6).1
  let s3 := (index_table.removei 3 0 s2 2).1
  (index_table.insert 3 0 s3 7).1

/-!
## Basic lemmas: machine arithmetic, `getD`, `countNE`
-/

theorem two_pow_64_eq : (2 : Nat) ^ 64 = 18446744073709551616 := by norm_num

theorem uadd1_eq_of_lt {n : Nat} (h : n + 1 < 2 ^ 64) : uadd1 n = n + 1 := by
  unfold uadd1
  exact Nat.mod_eq_of_lt h

theorem usub1_succ {n : Nat} (h : n < 2 ^ 64) : usub1 (n + 1) = n := by
  unfold usub1
  rw [two_pow_64_eq] at h ⊢
  omega

theorem usub1_zero : usub1 0 = 2 ^ 64 - 1 := by
  unfold usub1
  rw [two_pow_64_eq]

theorem toU64_of_nonneg {i : Int} (h0 : 0 ≤ i) (h1 : i < 2 ^ 64) :
    toU64 i = i.toNat := by
  unfold toU64
  have h2 : i.emod (2 ^ 64) = i := Int.emod_eq_of_lt h0 (by exact_mod_cast h1)
  rw [h2]

theorem toU64_natCast {n : Nat} (h : n < 2 ^ 64) : toU64 (n : Int) = n := by
  rw [toU64_of_nonneg (by positivity) (by exact_mod_cast h), Int.toNat_natCast]

theorem toI32_of_range {i : Int} (h0 : -2 ^ 31 ≤ i) (h1 : i < 2 ^ 31) :
    toI32 i = i := by
  unfold toI32
  have e1 : (2 : Int) ^ 31 = 2147483648 := by norm_num
  have e2 : (2 : Int) ^ 32 = 4294967296 := by norm_num
  have h2 : (i + 2 ^ 31).emod (2 ^ 32) = i + 2 ^ 31 :=
    Int.emod_eq_of_lt (by omega) (by omega)
  rw [h2]
  ring

theorem toI32_natCast {d : Nat} (h : d < 2 ^ 31) : toI32 (d : Int) = d := by
  refine toI32_of_range ?_ ?_
  · have e1 : (2 : Int) ^ 31 = 2147483648 := by norm_num
    omega
  · exact_mod_cast h

theorem toI32_add_left (a b : Int) : toI32 (toI32 a + b) = toI32 (a + b) := by
  unfold toI32
  have h1 : (a + 2 ^ 31).emod (2 ^ 32) - 2 ^ 31 + b + 2 ^ 31
      = (a + 2 ^ 31).emod (2 ^ 32) + b := by ring
  rw [h1]
  have h2 : ((a + 2 ^ 31).emod (2 ^ 32) + b).emod (2 ^ 32)
      = (a + 2 ^ 31 + b).emod (2 ^ 32) := Int.emod_add_emod _ _ _
  rw [h2]
  have h3 : a + 2 ^ 31 + b = a + b + 2 ^ 31 := by ring
  rw [h3]

theorem getD_of_lt {α : Type _} (l : List α) (d : α) {i : Nat}
    (h : i < l.length) : l.getD i d = l[i] := by
  simp [List.getD_eq_getElem?_getD, List.getElem?_eq_getElem h]

theorem countNE_le_length {T : Type} [DecidableEq T] (t0 : T) (l : List T) :
    countNE t0 l ≤ l.length :=
  List.countP_le_length _

theorem countNE_replicate {T : Type} [DecidableEq T] (t0 : T) (n : Nat) :
    countNE t0 (List.replicate n t0) = 0 := by
  induction n with
  | zero => rfl
  | succ n ih =>
      simp only [countNE, List.replicate_succ, List.countP_cons] at ih ⊢
      simp [ih]

theorem countNE_eq_length_iff {T : Type} [DecidableEq T] (t0 : T)
    (l : List T) : countNE t0 l = l.length ↔ ∀ x ∈ l, x ≠ t0 := by
  unfold countNE
  rw [List.countP_eq_length]
  simp

theorem countNE_set_fresh {T : Type} [DecidableEq T] {t0 v : T} {l : List T}
    {i : Nat} (h : i < l.length) (hslot : l[i] = t0) (hv : v ≠ t0) :
    countNE t0 (l.set i v) = countNE t0 l + 1 := by
  unfold countNE
  rw [List.countP_set _ _ _ _ h, hslot]
  simp [hv]

theorem countNE_set_clear {T : Type} [DecidableEq T] {t0 : T} {l : List T}
    {i : Nat} (h : i < l.length) (hslot : l[i] ≠ t0) :
    countNE t0 (l.set i t0) = countNE t0 l - 1 := by
  unfold countNE
  rw [List.countP_set _ _ _ _ h]
  simp [hslot]

/-- The position scanned by `get_index` when a sentinel slot exists. -/
theorem findIdx_sentinel_lt {T : Type} [DecidableEq T] {t0 : T} {l : List T}
    (h : countNE t0 l < l.length) :
    l.findIdx (fun x => decide (x = t0)) < l.length := by
  rcases Nat.lt_or_ge (l.findIdx fun x => decide (x = t0)) l.length with h' | h'
  · exact h'
  · exfalso
    have heq : l.findIdx (fun x => decide (x = t0)) = l.length :=
      Nat.le_antisymm (List.findIdx_le_length _) h'
    rw [List.findIdx_eq_length] at heq
    have : ∀ x ∈ l, x ≠ t0 := by
      intro x hx
      simpa using heq x hx
    rw [← countNE_eq_length_iff t0 l] at this
    omega

/-!
## Bucket-level lemmas
-/

theorem index_bucket.item_eq_of_findIdx {T : Type} [DecidableEq T] {S : Nat}
    {b : index_bucket T} {itm : T} {d : Nat}
    (h : b.items.findIdx (fun x => decide (x = itm)) = d) :
    index_bucket.item S b itm
      = if toU64 (toI32 (d : Int)) ≠ S then toI32 (d : Int) else -1 := by
  unfold index_bucket.item
  rw [h]

theorem index_bucket.item_eq_neg_one {T : Type} [DecidableEq T] {S : Nat}
    {v : T} {b : index_bucket T} (hS31 : S < 2 ^ 31)
    (hlen : b.items.length = S)
    (hv : v ∉ b.items) : index_bucket.item S b v = -1 := by
  unfold index_bucket.item
  have hfi : b.items.findIdx (fun x => decide (x = v)) = S := by
    rw [← hlen]
    exact List.findIdx_eq_length_of_false fun x hx => by
      simp only [decide_eq_false_iff_not]
      rintro rfl
      exact hv hx
  rw [hfi]
  simp [toI32_natCast hS31, toU64_natCast (lt_trans hS31 (by norm_num))]

theorem index_bucket.item_of_mem {T : Type} [DecidableEq T] {S : Nat}
    {v : T} {b : index_bucket T} (hS31 : S < 2 ^ 31)
    (hlen : b.items.length = S)
    (hv : v ∈ b.items) :
    index_bucket.item S b v = ((b.items.findIdx fun x => decide (x = v) : Nat) : Int) ∧
      (b.items.findIdx fun x => decide (x = v)) < S := by
  have hlt : (b.items.findIdx fun x => decide (x = v)) < S := by
    rw [← hlen]
    exact List.findIdx_lt_length_of_exists ⟨v, hv, by simp⟩
  constructor
  · unfold index_bucket.item
    simp [toI32_natCast (lt_trans hlt hS31),
      toU64_natCast (lt_trans (lt_trans hlt hS31) (by norm_num)),
      Nat.ne_of_lt hlt]
  · exact hlt

theorem index_bucket.item_ne_neg_one_iff {T : Type} [DecidableEq T] {S : Nat}
    {v : T} {b : index_bucket T} (hS31 : S < 2 ^ 31)
    (hlen : b.items.length = S) :
    index_bucket.item S b v ≠ -1 ↔ v ∈ b.items := by
  constructor
  · intro h
    by_contra hv
    exact h (index_bucket.item_eq_neg_one hS31 hlen hv)
  · intro hv
    rw [(index_bucket.item_of_mem hS31 hlen hv).1]
    intro h
    have := (index_bucket.item_of_mem hS31 hlen hv).2
    omega

theorem index_bucket.get_index_eq {T : Type} [DecidableEq T] (S : Nat)
    (t0 : T) (b : index_bucket T) :
    index_bucket.get_index S t0 b =
      if toU64 (toI32 (b.items.findIdx fun itm => decide (itm = t0) : Nat)) ≠ S
      then toI32 ((b.items.findIdx fun itm => decide (itm = t0) : Nat) : Int)
      else -1 := rfl

theorem index_bucket.insert_eq {T : Type} [DecidableEq T] (S : Nat)
    (t0 : T) (b : index_bucket T) (itm : T) :
    index_bucket.insert S t0 b itm =
      if 0 ≤ index_bucket.get_index S t0 b ∧
          index_bucket.get_index S t0 b < (S : Int) then
        ({ b with items := b.items.set (index_bucket.get_index S t0 b).toNat itm,
                  filled := uadd1 b.filled },
          index_bucket.get_index S t0 b)
      else (b, index_bucket.get_index S t0 b) := rfl

theorem index_bucket.remove_eq {T : Type} [DecidableEq T] (S : Nat)
    (t0 : T) (b : index_bucket T) (itm : T) :
    index_bucket.remove S t0 b itm =
      (if (0 : Int) ≤ ((b.items.findIdx fun src => decide (src = itm) : Nat) : Int)
       then { b with
          items := b.items.set
            ((b.items.findIdx fun src => decide (src = itm) : Nat) : Int).toNat t0,
          filled := usub1 b.filled }
       else b,
       if ((b.items.findIdx fun src => decide (src = itm) : Nat) : Int) ≠ (S : Int)
       then ((b.items.findIdx fun src => decide (src = itm) : Nat) : Int)
       else -1) := rfl

theorem index_bucket.insert_found {T : Type} [DecidableEq T] {S : Nat}
    {t0 v : T} {b : index_bucket T}
    (hlen : b.items.length = S) (hfilled : b.filled = countNE t0 b.items)
    (hfill : countNE t0 b.items < S) (hS31 : S < 2 ^ 31) :
    ∃ k : Nat, k < S ∧ (∀ h : k < b.items.length, b.items[k] = t0) ∧
      index_bucket.insert S t0 b v =
        (⟨b.items.set k v, countNE t0 b.items + 1, b.bucket_index⟩, (k : Int)) := by
  set k := b.items.findIdx fun itm => decide (itm = t0) with hk
  have hklt : k < b.items.length := findIdx_sentinel_lt (by rw [hlen]; exact hfill)
  have hkS : k < S := hlen ▸ hklt
  refine ⟨k, hkS, ?_, ?_⟩
  · intro h
    have := @List.findIdx_getElem _ (fun itm => decide (itm = t0)) b.items hklt
    simpa using this
  · have hgi : index_bucket.get_index S t0 b = ((k : Nat) : Int) := by
      rw [index_bucket.get_index_eq, ← hk, toI32_natCast (lt_trans hkS hS31),
        toU64_natCast (lt_trans (lt_trans hkS hS31) (by norm_num))]
      simp [Nat.ne_of_lt hkS]
    have hcond : (0 : Int) ≤ ((k : Nat) : Int) ∧ ((k : Nat) : Int) < (S : Int) := by
      refine ⟨by positivity, ?_⟩
      exact_mod_cast hkS
    rw [index_bucket.insert_eq, hgi, if_pos hcond, Int.toNat_natCast]
    have hfb : uadd1 b.filled = countNE t0 b.items + 1 := by
      rw [hfilled]
      exact uadd1_eq_of_lt (by omega)
    rw [hfb]

theorem index_bucket.remove_found {T : Type} [DecidableEq T] {S : Nat}
    {t0 w : T} {b : index_bucket T}
    (hlen : b.items.length = S) (hw : w ∈ b.items) :
    (b.items.findIdx fun x => decide (x = w)) < S ∧
      index_bucket.remove S t0 b w =
        (⟨b.items.set (b.items.findIdx fun x => decide (x = w)) t0,
            usub1 b.filled, b.bucket_index⟩,
          ((b.items.findIdx fun x => decide (x = w) : Nat) : Int)) := by
  set k := b.items.findIdx fun x => decide (x = w) with hk
  have hklt : k < b.items.length := List.findIdx_lt_length_of_exists ⟨w, hw, by simp⟩
  have hkS : k < S := hlen ▸ hklt
  have hne : ((k : Nat) : Int) ≠ (S : Int) := by exact_mod_cast Nat.ne_of_lt hkS
  refine ⟨hkS, ?_⟩
  rw [index_bucket.remove_eq, ← hk, if_pos (by positivity : (0:Int) ≤ ((k : Nat) : Int)),
    if_pos hne, Int.toNat_natCast]

theorem index_table.insert_some {T : Type} [DecidableEq T] {S : Nat}
    {t0 itm : T} {tb : index_table T} {pos : Nat}
    (h : index_table.first S tb = some pos) :
    index_table.insert S t0 tb itm =
      ({ tb with buckets := (tb.buckets.set pos (index_bucket.insert S t0 (tb.buckets.getD pos index_table.dummy_bucket) itm).1) },
        toI32 ((index_bucket.insert S t0 (tb.buckets.getD pos index_table.dummy_bucket) itm).2 + (tb.buckets.getD pos index_table.dummy_bucket).bucket_index * S)) := by
  unfold index_table.insert
  rw [h]

theorem index_table.insert_none {T : Type} [DecidableEq T] {S : Nat}
    {t0 itm : T} {tb : index_table T}
    (h : index_table.first S tb = none) :
    index_table.insert S t0 tb itm =
      ({ (index_table.bucket S t0 tb).1 with buckets := ((index_table.bucket S t0 tb).1.buckets.set (index_table.bucket S t0 tb).2 (index_bucket.insert S t0 ((index_table.bucket S t0 tb).1.buckets.getD (index_table.bucket S t0 tb).2 index_table.dummy_bucket) itm).1) },
        toI32 ((index_bucket.insert S t0 ((index_table.bucket S t0 tb).1.buckets.getD (index_table.bucket S t0 tb).2 index_table.dummy_bucket) itm).2 + ((index_table.bucket S t0 tb).1.buckets.getD (index_table.bucket S t0 tb).2 index_table.dummy_bucket).bucket_index * S)) := by
  unfold index_table.insert
  rw [h]

theorem index_table.gett_none {T : Type} [DecidableEq T] {S : Nat}
    {t0 itm : T} {tb : index_table T}
    (h : tb.buckets.findIdx?
        (fun b => decide (index_bucket.item S b itm ≠ -1)) = none) :
    index_table.gett S t0 tb itm = -1 := by
  unfold index_table.gett
  rw [h]

theorem index_table.gett_some {T : Type} [DecidableEq T] {S : Nat}
    {t0 itm : T} {tb : index_table T} {pos : Nat}
    (h : tb.buckets.findIdx?
        (fun b => decide (index_bucket.item S b itm ≠ -1)) = some pos) :
    index_table.gett S t0 tb itm =
      toI32 (index_bucket.item S (tb.buckets.getD pos index_table.dummy_bucket) itm +
        (tb.buckets.getD pos index_table.dummy_bucket).bucket_index * S) := by
  unfold index_table.gett
  rw [h]

theorem index_table.geti_none {T : Type} [DecidableEq T] {S : Nat}
    {t0 : T} {tb : index_table T} {index : Int}
    (h : tb.buckets.findIdx?
        (fun b => decide (toU64 b.bucket_index = toU64 index / S)) = none) :
    index_table.geti S t0 tb index = t0 := by
  unfold index_table.geti
  rw [h]

theorem index_table.geti_some {T : Type} [DecidableEq T] {S : Nat}
    {t0 : T} {tb : index_table T} {index : Int} {pos : Nat}
    (h : tb.buckets.findIdx?
        (fun b => decide (toU64 b.bucket_index = toU64 index / S)) = some pos) :
    index_table.geti S t0 tb index =
      (tb.buckets.getD pos index_table.dummy_bucket).items.getD
        (toU64 index % S) t0 := by
  unfold index_table.geti
  rw [h]

theorem index_table.removei_none {T : Type} [DecidableEq T] {S : Nat}
    {t0 : T} {tb : index_table T} {index : Int}
    (h : tb.buckets.findIdx?
        (fun b => decide (toU64 b.bucket_index = toU64 index / S)) = none) :
    index_table.removei S t0 tb index = (tb, t0) := by
  unfold index_table.removei
  rw [h]

theorem index_table.removei_some {T : Type} [DecidableEq T] {S : Nat}
    {t0 : T} {tb : index_table T} {index : Int} {pos : Nat}
    (h : tb.buckets.findIdx?
        (fun b => decide (toU64 b.bucket_index = toU64 index / S)) = some pos) :
    index_table.removei S t0 tb index =
      (if (index_bucket.remove S t0 (tb.buckets.getD pos index_table.dummy_bucket) ((tb.buckets.getD pos index_table.dummy_bucket).items.getD (toU64 index % S) t0)).1.filled ≤ 0 then
        ({ tb with buckets := (tb.buckets.eraseIdx pos), empty := ((tb.buckets.getD pos index_table.dummy_bucket).bucket_index :: tb.empty) },
          (tb.buckets.getD pos index_table.dummy_bucket).items.getD (toU64 index % S) t0)
      else
        ({ tb with buckets := (tb.buckets.set pos (index_bucket.remove S t0 (tb.buckets.getD pos index_table.dummy_bucket) ((tb.buckets.getD pos index_table.dummy_bucket).items.getD (toU64 index % S) t0)).1) },
          (tb.buckets.getD pos index_table.dummy_bucket).items.getD (toU64 index % S) t0)) := by
  unfold index_table.removei
  rw [h]

theorem index_table.removei_snd {T : Type} [DecidableEq T] {S : Nat}
    {t0 : T} {tb : index_table T} {index : Int} {pos : Nat}
    (h : tb.buckets.findIdx?
        (fun b => decide (toU64 b.bucket_index = toU64 index / S)) = some pos) :
    (index_table.removei S t0 tb index).2 =
      (tb.buckets.getD pos index_table.dummy_bucket).items.getD
        (toU64 index % S) t0 := by
  rw [index_table.removei_some h]
  split <;> rfl

theorem index_table.removet_none {T : Type} [DecidableEq T] {S : Nat}
    {t0 itm : T} {tb : index_table T}
    (h : tb.buckets.findIdx?
        (fun b => decide (index_bucket.item S b itm ≠ -1)) = none) :
    index_table.removet S t0 tb itm = (tb, -1) := by
  unfold index_table.removet
  rw [h]

theorem findIdx?_at {α : Type _} {l : List α} {p : α → Bool} {pos : Nat}
    (d : α) (hpos : pos < l.length) (hp : p (l.getD pos d) = true)
    (hbefore : ∀ j, j < pos → p (l.getD j d) = false) :
    l.findIdx? p = some pos := by
  rw [List.findIdx?_eq_some_iff_getElem]
  refine ⟨hpos, ?_, ?_⟩
  · rw [← getD_of_lt l d hpos]
    exact hp
  · intro j hj
    rw [← getD_of_lt l d (Nat.lt_trans hj hpos), hbefore j hj]
    simp

theorem findIdx_at {α : Type _} {l : List α} {p : α → Bool} {i : Nat}
    (d : α) (hi : i < l.length) (hp : p (l.getD i d) = true)
    (hbefore : ∀ j, j < i → p (l.getD j d) = false) :
    l.findIdx p = i := by
  rw [List.findIdx_eq hi]
  constructor
  · rw [← getD_of_lt l d hi]
    exact hp
  · intro j hj
    rw [← getD_of_lt l d (Nat.lt_trans hj hi), hbefore j hj]

/-- What `bucket()` does to a well-formed table: appends one fresh
bucket whose identifier is in range and clashes with no live bucket. -/
theorem index_table.bucket_spec {T : Type} [DecidableEq T] {S : Nat} {t0 : T}
    {tb : index_table T} (hwf : index_table.wf S t0 tb) :
    ∃ q : Int,
      (index_table.bucket S t0 tb).1.buckets
          = tb.buckets ++ [index_bucket.init S t0 q] ∧
      (index_table.bucket S t0 tb).2 = tb.buckets.length ∧
      0 ≤ q ∧ q ≤ tb.bucket_hiindex + 1 ∧
      ∀ b ∈ tb.buckets, b.bucket_index ≠ q := by
  obtain ⟨hb, hnd, hemp, hhi0, hhi1⟩ := hwf
  unfold index_table.bucket
  cases he : tb.empty with
  | cons e rest =>
      obtain ⟨he0, hehi, hefresh⟩ := hemp e (by rw [he]; exact List.mem_cons_self e rest)
      refine ⟨e, rfl, rfl, he0, by omega, ?_⟩
      intro b hbmem heq
      exact hefresh (heq ▸ List.mem_map_of_mem index_bucket.bucket_index hbmem)
  | nil =>
      by_cases hlen : 0 < tb.buckets.length
      · rw [if_pos hlen]
        refine ⟨tb.bucket_hiindex + 1, rfl, rfl, by omega, le_refl _, ?_⟩
        intro b hbmem heq
        have := (hb b hbmem).2.2.2
        omega
      · rw [if_neg hlen]
        refine ⟨0, rfl, rfl, le_refl _, by omega, ?_⟩
        intro b hbmem heq
        exact hlen (List.length_pos_of_mem hbmem)

/-- What `insert` does to a well-formed table: some bucket position
`pos` receives the value `v` in slot `k`, the returned identifier is
`q * S + k` for that bucket's identifier `q`, and every other bucket is
an untouched bucket of the original table with a different identifier. -/
theorem index_table.insert_spec {T : Type} [DecidableEq T] {S : Nat}
    {t0 v : T} {tb : index_table T} (hS : 0 < S) (hS31 : S < 2 ^ 31)
    (hwf : index_table.wf S t0 tb) :
    ∃ (pos k : Nat) (q : Int) (old : List T),
      (index_table.insert S t0 tb v).2 = toI32 (q * S + k) ∧
      k < S ∧ old.length = S ∧ countNE t0 old < S ∧
      (∀ h : k < old.length, old[k] = t0) ∧
      0 ≤ q ∧ q ≤ tb.bucket_hiindex + 1 ∧
      pos < (index_table.insert S t0 tb v).1.buckets.length ∧
      (index_table.insert S t0 tb v).1.buckets.getD pos index_table.dummy_bucket
          = ⟨old.set k v, countNE t0 old + 1, q⟩ ∧
      ((∃ b ∈ tb.buckets, old = b.items ∧ q = b.bucket_index) ∨
        old = List.replicate S t0) ∧
      (∀ j, j < (index_table.insert S t0 tb v).1.buckets.length → j ≠ pos →
        (index_table.insert S t0 tb v).1.buckets.getD j index_table.dummy_bucket
            ∈ tb.buckets ∧
          ((index_table.insert S t0 tb v).1.buckets.getD j
              index_table.dummy_bucket).bucket_index ≠ q) := by
  have hwf' := hwf
  obtain ⟨hb, hnd, hemp, hhi0, hhi1⟩ := hwf'
  cases hf : index_table.first S tb with
  | some pos =>
      have hfs := hf
      unfold index_table.first at hfs
      rw [List.findIdx?_eq_some_iff_getElem] at hfs
      obtain ⟨hpos, hfill, hbef⟩ := hfs
      have hmem : tb.buckets[pos] ∈ tb.buckets := List.getElem_mem hpos
      obtain ⟨hlen, hfc, hq0, hqhi⟩ := hb _ hmem
      have hflt : tb.buckets[pos].filled < S := by simpa using hfill
      have hcnt : countNE t0 tb.buckets[pos].items < S := hfc ▸ hflt
      obtain ⟨k, hkS, hslot, hins⟩ :=
        index_bucket.insert_found (v := v) hlen hfc hcnt hS31
      have hgd : tb.buckets.getD pos index_table.dummy_bucket = tb.buckets[pos] :=
        getD_of_lt _ _ hpos
      refine ⟨pos, k, tb.buckets[pos].bucket_index, tb.buckets[pos].items,
        ?_, hkS, hlen, hcnt, hslot, hq0, by omega, ?_, ?_, ?_, ?_⟩
      · rw [index_table.insert_some hf, hgd, hins]
        refine congrArg toI32 ?_
        push_cast
        ring
      · rw [index_table.insert_some hf]
        simpa using hpos
      · rw [index_table.insert_some hf, hgd, hins]
        simp only []
        rw [getD_of_lt _ _ (by simpa using hpos)]
        simp
      · exact Or.inl ⟨tb.buckets[pos], hmem, rfl, rfl⟩
      · intro j hj hjpos
        rw [index_table.insert_some hf] at hj ⊢
        simp only [List.length_set] at hj
        have hgj : (tb.buckets.set pos
            (index_bucket.insert S t0
              (tb.buckets.getD pos index_table.dummy_bucket) v).1).getD j
              index_table.dummy_bucket = tb.buckets[j] := by
          rw [List.getD_eq_getElem?_getD,
            List.getElem?_set_ne (Ne.symm hjpos),
            List.getElem?_eq_getElem hj]
          rfl
        simp only [hgj]
        refine ⟨List.getElem_mem hj, ?_⟩
        intro heq
        have hjm : j < (tb.buckets.map index_bucket.bucket_index).length := by
          simpa using hj
        have hpm : pos < (tb.buckets.map index_bucket.bucket_index).length := by
          simpa using hpos
        have hmm : (tb.buckets.map index_bucket.bucket_index)[j] =
            (tb.buckets.map index_bucket.bucket_index)[pos] := by
          simp only [List.getElem_map]
          exact heq
        have := (List.Nodup.getElem_inj_iff hnd).mp hmm
        exact hjpos this
  | none =>
      obtain ⟨q, hbuck, hpos2, hq0, hqhi, hfresh⟩ := index_table.bucket_spec hwf
      have hlen0 : (index_table.bucket S t0 tb).1.buckets.length
          = tb.buckets.length + 1 := by rw [hbuck]; simp
      have hgdnew : (index_table.bucket S t0 tb).1.buckets.getD
          (index_table.bucket S t0 tb).2 index_table.dummy_bucket
          = index_bucket.init S t0 q := by
        rw [hbuck, hpos2, getD_of_lt _ _ (by simp)]
        rw [List.getElem_append_right (le_refl _)]
        simp
      have hinitlen : (index_bucket.init S t0 q).items.length = S := by
        unfold index_bucket.init
        simp
      have hinitfc : (index_bucket.init S t0 q).filled
          = countNE t0 (index_bucket.init S t0 q).items := by
        unfold index_bucket.init
        simp [countNE_replicate]
      have hinitcnt : countNE t0 (index_bucket.init S t0 q).items < S := by
        unfold index_bucket.init
        simp only []
        rw [countNE_replicate]
        exact hS
      obtain ⟨k, hkS, hslot, hins⟩ :=
        index_bucket.insert_found (v := v) hinitlen hinitfc hinitcnt hS31
      refine ⟨tb.buckets.length, k, q, (index_bucket.init S t0 q).items,
        ?_, hkS, hinitlen, hinitcnt, hslot, hq0, hqhi, ?_, ?_, ?_, ?_⟩
      · rw [index_table.insert_none hf, hgdnew, hins]
        simp only [index_bucket.init]
        refine congrArg toI32 ?_
        push_cast
        ring
      · rw [index_table.insert_none hf]
        simp only [List.length_set, hlen0, hpos2]
        omega
      · rw [index_table.insert_none hf]
        simp only []
        rw [hgdnew, hins]
        simp only [hpos2]
        rw [getD_of_lt _ _ (by simp [hlen0])]
        rw [List.getElem_set_self (by simp [hlen0])]
        simp [index_bucket.init]
      · exact Or.inr (by simp [index_bucket.init])
      · intro j hj hjpos
        rw [index_table.insert_none hf] at hj ⊢
        simp only [List.length_set, hlen0, hpos2] at hj
        have hjlt : j < tb.buckets.length := by omega
        have hgj : ((index_table.bucket S t0 tb).1.buckets.set
            (index_table.bucket S t0 tb).2
            (index_bucket.insert S t0
              ((index_table.bucket S t0 tb).1.buckets.getD
                (index_table.bucket S t0 tb).2 index_table.dummy_bucket) v).1).getD
            j index_table.dummy_bucket = tb.buckets[j] := by
          rw [List.getD_eq_getElem?_getD,
            List.getElem?_set_ne (by rw [hpos2]; omega),
            hbuck, List.getElem?_append_left hjlt,
            List.getElem?_eq_getElem hjlt]
          rfl
        simp only [hgj]
        exact ⟨List.getElem_mem hjlt, hfresh _ (List.getElem_mem hjlt)⟩

/-- Splitting a global identifier `q * S + k` back into page and offset,
through the unsigned conversion performed by `geti`/`removei`. -/
theorem id_arith {q : Int} {S k : Nat} (hq0 : 0 ≤ q) (hq1 : q ≤ 2 ^ 31)
    (hS : 0 < S) (hS31 : S ≤ 2 ^ 31) (hk : k < S) :
    toU64 (q * S + k) / S = q.toNat ∧ toU64 (q * S + k) % S = k := by
  have hqe : ((q.toNat : Nat) : Int) = q := Int.toNat_of_nonneg hq0
  have hcast : q * S + k = ((q.toNat * S + k : Nat) : Int) := by
    push_cast [hqe]
    ring
  have hqb : q.toNat ≤ 2 ^ 31 := by omega
  have hbound : q.toNat * S + k < 2 ^ 64 := by
    have h1 : q.toNat * S ≤ 2 ^ 31 * 2 ^ 31 := Nat.mul_le_mul hqb hS31
    have h2 : (2 : Nat) ^ 31 * 2 ^ 31 + 2 ^ 31 < 2 ^ 64 := by norm_num
    omega
  rw [hcast, toU64_natCast hbound]
  constructor
  · rw [Nat.mul_comm, Nat.mul_add_div hS, Nat.div_eq_of_lt hk]
    omega
  · rw [Nat.mul_comm, Nat.mul_add_mod, Nat.mod_eq_of_lt hk]

theorem toU64_small {q : Int} (hq0 : 0 ≤ q) (hq1 : q ≤ 2 ^ 31) :
    toU64 q = q.toNat := by
  refine toU64_of_nonneg hq0 ?_
  have : (2 : Int) ^ 31 < 2 ^ 64 := by norm_num
  omega

/-- Effect of `insert` on a well-formed table, together with the location of the
inserted slot as seen by the `geti`/`removei` page scan on the result. -/
theorem index_table.insert_locate {T : Type} [DecidableEq T] {S : Nat}
    {t0 v : T} {tb : index_table T} (hS : 0 < S)
    (hbound : (tb.bucket_hiindex + 2) * S ≤ 2 ^ 31)
    (hwf : index_table.wf S t0 tb) :
    ∃ (pos k : Nat) (q : Int) (old : List T),
      (index_table.insert S t0 tb v).2 = q * S + k ∧
      k < S ∧ old.length = S ∧ countNE t0 old < S ∧
      0 ≤ q ∧ q ≤ tb.bucket_hiindex + 1 ∧
      pos < (index_table.insert S t0 tb v).1.buckets.length ∧
      (index_table.insert S t0 tb v).1.buckets.getD pos index_table.dummy_bucket
          = ⟨old.set k v, countNE t0 old + 1, q⟩ ∧
      ((∃ b ∈ tb.buckets, old = b.items ∧ q = b.bucket_index) ∨
        old = List.replicate S t0) ∧
      (∀ j, j < (index_table.insert S t0 tb v).1.buckets.length → j ≠ pos →
        (index_table.insert S t0 tb v).1.buckets.getD j index_table.dummy_bucket
            ∈ tb.buckets ∧
          ((index_table.insert S t0 tb v).1.buckets.getD j
              index_table.dummy_bucket).bucket_index ≠ q) ∧
      (index_table.insert S t0 tb v).1.buckets.findIdx?
          (fun b => decide (toU64 b.bucket_index =
            toU64 (index_table.insert S t0 tb v).2 / S)) = some pos ∧
      toU64 (index_table.insert S t0 tb v).2 % S = k := by
  have hwfc := hwf
  obtain ⟨hb, hnd, hemp, hhi0, hhi1⟩ := hwfc
  have e1 : (2 : Int) ^ 31 = 2147483648 := by norm_num
  have e2 : (2 : Nat) ^ 31 = 2147483648 := by norm_num
  have h2S : 2 * (S : Int) ≤ 2 ^ 31 := by
    calc 2 * (S : Int) ≤ (tb.bucket_hiindex + 2) * S :=
          mul_le_mul_of_nonneg_right (by omega) (by positivity)
      _ ≤ 2 ^ 31 := hbound
  have hS31 : S < 2 ^ 31 := by omega
  obtain ⟨pos, k, q, old, hid, hkS, hol, hocnt, hslot, hq0, hqhi,
    hposlt, hbpos, hprov, hothers⟩ := index_table.insert_spec hS hS31 hwf
  have hq31 : q ≤ 2 ^ 31 := by omega
  have hqs0 : 0 ≤ q * (S : Int) := mul_nonneg hq0 (by positivity)
  have hkSi : ((k : Nat) : Int) < (S : Int) := by exact_mod_cast hkS
  have hup : q * (S : Int) + k < 2 ^ 31 := by
    have h1 : (q + 1) * (S : Int) ≤ (tb.bucket_hiindex + 2) * S :=
      mul_le_mul_of_nonneg_right (by omega) (by positivity)
    have h3 : (q + 1) * (S : Int) = q * S + S := by ring
    omega
  have hid' : (index_table.insert S t0 tb v).2 = q * S + k := by
    rw [hid]
    exact toI32_of_range (by omega) hup
  have harith := id_arith hq0 hq31 hS (le_of_lt hS31) hkS
  refine ⟨pos, k, q, old, hid', hkS, hol, hocnt, hq0, hqhi, hposlt, hbpos,
    hprov, hothers, ?_, by rw [hid']; exact harith.2⟩
  refine findIdx?_at index_table.dummy_bucket hposlt ?_ ?_
  · rw [hbpos]
    simp only [decide_eq_true_eq]
    rw [hid', harith.1, toU64_small hq0 hq31]
  · intro j hj
    have hjlt := Nat.lt_trans hj hposlt
    have hoth := hothers j hjlt (Nat.ne_of_lt hj)
    obtain ⟨hlenj, hfcj, hq0j, hqhij⟩ := hb _ hoth.1
    simp only [decide_eq_false_iff_not]
    rw [hid', harith.1, toU64_small hq0j (by omega)]
    intro heq
    exact hoth.2 (by omega)

/-- C1, amended: on a well-formed table state — pages of slot length
`S`, distinct in-range page identifiers, fresh freed identifiers, and
fill counters equal to non-sentinel slot counts — and when every
identifier the insertion can return fits `int32_t`
(`(bucket_hiindex + 2) * S ≤ 2^31`), reading back a freshly inserted
non-sentinel value through its returned global identifier yields that
value: `geti (insert v) = v`. -/
theorem C1_roundtrip {T : Type} [DecidableEq T] (S : Nat) (t0 : T)
    (tb : index_table T) (v : T) (hS : 0 < S)
    (hbound : (tb.bucket_hiindex + 2) * S ≤ 2 ^ 31)
    (hwf : index_table.wf S t0 tb) (hv : v ≠ t0) :
    index_table.geti S t0 (index_table.insert S t0 tb v).1
      (index_table.insert S t0 tb v).2 = v := by
  obtain ⟨pos, k, q, old, hid, hkS, hol, hocnt, hq0, hqhi, hposlt, hbpos,
    hprov, hothers, hfind, hmod⟩ := index_table.insert_locate hS hbound hwf
  rw [index_table.geti_some hfind, hbpos]
  simp only []
  rw [hmod]
  have hklen : k < (old.set k v).length := by
    rw [List.length_set, hol]
    exact hkS
  rw [getD_of_lt _ _ hklen]
  exact List.getElem_set_self hklen

/-- C1 counterexample: the claim quantifies over every reachable table
state, but `removei` at an identifier whose slot is empty corrupts the
fill counter (see the C7/C10 analysis), producing the reachable state
`c1tab` (built by `insert 5; insert 6; removei 2; insert 7` on
`index_table<int, 3>` from `cache = 0`).  There `insert 8` scans the
bucket as having room (`filled = 2 < 3`), finds no free slot, stores
nothing and returns `-1`, and `geti (-1)` yields the sentinel `0 ≠ 8`. -/
theorem C1_counterexample :
    index_table.geti 3 (0 : Int) (index_table.insert 3 0 c1tab 8).1
        (index_table.insert 3 0 c1tab 8).2 = 0 ∧ (8 : Int) ≠ 0 := by
  decide

theorem C1_roundtrip_witness :
    index_table.geti 2 (0 : Int)
        (index_table.insert 2 0 (index_table.init 2 0 1) 5).1
        (index_table.insert 2 0 (index_table.init 2 0 1) 5).2 = 5 :=
  C1_roundtrip 2 0 (index_table.init 2 0 1) 5 (by decide) (by decide)
    (by unfold index_table.wf index_bucket.wfb countNE; decide) (by decide)

/-- Lemma that `gett` reports the not-found sentinel when the value is stored in no
bucket. -/
theorem index_table.gett_absent {T : Type} [DecidableEq T] {S : Nat}
    {t0 v : T} {tb : index_table T} (hS31 : S < 2 ^ 31)
    (h : ∀ b ∈ tb.buckets, b.items.length = S ∧ v ∉ b.items) :
    index_table.gett S t0 tb v = -1 := by
  apply index_table.gett_none
  rw [List.findIdx?_eq_none_iff]
  intro b hbm
  simp only [decide_eq_false_iff_not, Decidable.not_not]
  exact index_bucket.item_eq_neg_one hS31 (h b hbm).1 (h b hbm).2

/-- C2, amended: on a well-formed table state whose identifiers fit
`int32_t` (`(bucket_hiindex + 2) * S ≤ 2^31`), (a) `removei` at an
identifier addressing a stored value returns that value, and (b) for a
non-sentinel value `v` stored nowhere in the table,
`removei (insert v) = v` and afterwards `gett v` reports not-found. -/
theorem C2_removal_symmetry {T : Type} [DecidableEq T] (S : Nat) (t0 : T)
    (tb : index_table T) (hS : 0 < S)
    (hbound : (tb.bucket_hiindex + 2) * S ≤ 2 ^ 31)
    (hwf : index_table.wf S t0 tb) :
    (∀ (id : Int) (b : index_bucket T), 0 ≤ id → id < 2 ^ 31 →
      b ∈ tb.buckets → b.bucket_index = ((id.toNat / S : Nat) : Int) →
      (index_table.removei S t0 tb id).2 = b.items.getD (id.toNat % S) t0) ∧
    (∀ v : T, v ≠ t0 → (∀ b ∈ tb.buckets, v ∉ b.items) →
      (index_table.removei S t0 (index_table.insert S t0 tb v).1
          (index_table.insert S t0 tb v).2).2 = v ∧
      index_table.gett S t0
        (index_table.removei S t0 (index_table.insert S t0 tb v).1
          (index_table.insert S t0 tb v).2).1 v = -1) := by
  have hwfc := hwf
  obtain ⟨hb, hnd, hemp, hhi0, hhi1⟩ := hwfc
  have e1 : (2 : Int) ^ 31 = 2147483648 := by norm_num
  have e2 : (2 : Nat) ^ 31 = 2147483648 := by norm_num
  have h2S : 2 * (S : Int) ≤ 2 ^ 31 := by
    calc 2 * (S : Int) ≤ (tb.bucket_hiindex + 2) * S :=
          mul_le_mul_of_nonneg_right (by omega) (by positivity)
      _ ≤ 2 ^ 31 := hbound
  have hS31 : S < 2 ^ 31 := by omega
  constructor
  · -- (a) removei at an identifier addressing a stored value
    intro id b hid0 hid1 hbm hbq
    obtain ⟨i, hilt, hib⟩ := List.getElem_of_mem hbm
    obtain ⟨hlenb, hfcb, hq0b, hqhib⟩ := hb b hbm
    have htid : toU64 id = id.toNat := by
      refine toU64_of_nonneg hid0 ?_
      have : (2 : Int) ^ 31 < 2 ^ 64 := by norm_num
      omega
    have hfind : tb.buckets.findIdx?
        (fun x => decide (toU64 x.bucket_index = toU64 id / S)) = some i := by
      refine findIdx?_at index_table.dummy_bucket hilt ?_ ?_
      · rw [getD_of_lt _ _ hilt, hib]
        simp only [decide_eq_true_eq]
        rw [htid, toU64_small hq0b (by omega)]
        omega
      · intro j hj
        have hjlt := Nat.lt_trans hj hilt
        have hjm : tb.buckets.getD j index_table.dummy_bucket ∈ tb.buckets := by
          rw [getD_of_lt _ _ hjlt]
          exact List.getElem_mem hjlt
        obtain ⟨hlenj, hfcj, hq0j, hqhij⟩ := hb _ hjm
        simp only [decide_eq_false_iff_not]
        rw [htid, toU64_small hq0j (by omega)]
        intro heq
        -- two distinct live buckets would share the identifier id.toNat / S
        have hji : (tb.buckets.getD j index_table.dummy_bucket).bucket_index
            = b.bucket_index := by omega
        have hjm2 : j < (tb.buckets.map index_bucket.bucket_index).length := by
          simpa using hjlt
        have him2 : i < (tb.buckets.map index_bucket.bucket_index).length := by
          simpa using hilt
        have hmm : (tb.buckets.map index_bucket.bucket_index)[j] =
            (tb.buckets.map index_bucket.bucket_index)[i] := by
          simp only [List.getElem_map]
          rw [hib, ← getD_of_lt _ index_table.dummy_bucket hjlt]
          exact hji
        have := (List.Nodup.getElem_inj_iff hnd).mp hmm
        omega
    rw [index_table.removei_snd hfind, getD_of_lt _ _ hilt, hib, htid]
  · -- (b) removei after insert, then gett
    intro v hv hfresh
    obtain ⟨pos, k, q, old, hid, hkS, hol, hocnt, hq0, hqhi, hposlt, hbpos,
      hprov, hothers, hfind, hmod⟩ :=
      index_table.insert_locate (v := v) hS hbound hwf
    have hvold : v ∉ old := by
      rcases hprov with ⟨b, hbm, hbold, hbq⟩ | hrep
      · rw [hbold]
        exact hfresh b hbm
      · rw [hrep]
        intro hmem
        exact hv (List.eq_of_mem_replicate hmem)
    have hklen : k < (old.set k v).length := by
      rw [List.length_set, hol]
      exact hkS
    have hitm : ((index_table.insert S t0 tb v).1.buckets.getD pos
        index_table.dummy_bucket).items.getD
          (toU64 (index_table.insert S t0 tb v).2 % S) t0 = v := by
      rw [hbpos]
      simp only []
      rw [hmod, getD_of_lt _ _ hklen]
      exact List.getElem_set_self hklen
    constructor
    · rw [index_table.removei_snd hfind]
      exact hitm
    · -- after the removal the value is stored nowhere
      have hmemB : v ∈ (old.set k v) := by
        refine List.mem_set old k ?_ v
        rw [hol]
        exact hkS
      have hlenB : ((⟨old.set k v, countNE t0 old + 1, q⟩ :
          index_bucket T)).items.length = S := by
        simp only [List.length_set]
        exact hol
      obtain ⟨hkk, hrem⟩ := @index_bucket.remove_found T _ S t0 v
        ⟨old.set k v, countNE t0 old + 1, q⟩ hlenB hmemB
      have hkkk : ((⟨old.set k v, countNE t0 old + 1, q⟩ :
          index_bucket T)).items.findIdx (fun x => decide (x = v)) = k := by
        simp only []
        refine findIdx_at t0 hklen ?_ ?_
        · rw [getD_of_lt _ _ hklen, List.getElem_set_self hklen]
          simp
        · intro j hj
          have hjlt : j < (old.set k v).length := Nat.lt_trans hj hklen
          have hjold : j < old.length := by
            rw [List.length_set] at hjlt
            exact hjlt
          rw [getD_of_lt _ _ hjlt, List.getElem_set_ne (by omega)]
          simp only [decide_eq_false_iff_not]
          intro heq
          exact hvold (heq ▸ List.getElem_mem hjold)
      rw [hkkk] at hrem
      have hremfill : usub1 (countNE t0 old + 1) = countNE t0 old := by
        refine usub1_succ ?_
        have h2 : (2 : Nat) ^ 31 < 2 ^ 64 := by norm_num
        omega
      have hsetset : (old.set k v).set k t0 = old.set k t0 :=
        List.set_set v t0 old k
      simp only [hremfill, hsetset] at hrem
      have hBv : ((⟨old.set k v, countNE t0 old + 1, q⟩ :
          index_bucket T)).items.getD k t0 = v := by
        simp only []
        rw [getD_of_lt _ _ hklen]
        exact List.getElem_set_self hklen
      have hresult := @index_table.removei_some T _ S t0 _ _ _ hfind
      rw [hbpos, hmod, hBv, hrem] at hresult
      simp only [] at hresult
      rw [hresult]
      by_cases hc : countNE t0 old ≤ 0
      · rw [if_pos hc]
        refine index_table.gett_absent hS31 ?_
        intro b2 hbm2
        simp only [] at hbm2
        rw [List.mem_eraseIdx_iff_getElem] at hbm2
        obtain ⟨i, hile, hine, hieq⟩ := hbm2
        have hgdi : (index_table.insert S t0 tb v).1.buckets.getD i
            index_table.dummy_bucket = b2 := by
          rw [getD_of_lt _ _ hile]
          exact hieq
        have hoth := hothers i hile hine
        rw [hgdi] at hoth
        exact ⟨(hb _ hoth.1).1, hfresh _ hoth.1⟩
      · rw [if_neg hc]
        refine index_table.gett_absent hS31 ?_
        intro b2 hbm2
        simp only [] at hbm2
        obtain ⟨i, hi, hieq⟩ := List.getElem_of_mem hbm2
        by_cases hip : i = pos
        · subst hip
          rw [List.getElem_set_self hi] at hieq
          refine ⟨?_, ?_⟩
          · rw [← hieq]
            simp only [List.length_set]
            exact hol
          · rw [← hieq]
            simp only []
            intro hmem
            rcases List.mem_or_eq_of_mem_set hmem with hmo | hme
            · exact hvold hmo
            · exact hv hme
        · have hiL : i < (index_table.insert S t0 tb v).1.buckets.length := by
            rw [List.length_set] at hi
            exact hi
          rw [List.getElem_set_ne (fun h => hip h.symm)] at hieq
          have hgdi : (index_table.insert S t0 tb v).1.buckets.getD i
              index_table.dummy_bucket = b2 := by
            rw [getD_of_lt _ _ hiL]
            exact hieq
          have hoth := hothers i hiL hip
          rw [hgdi] at hoth
          exact ⟨(hb _ hoth.1).1, hfresh _ hoth.1⟩

/-- C2 counterexample: in the reachable corrupted state `c1tab` (see
`C1_counterexample`), `insert 8` stores nothing and returns `-1`, so
`removei (insert 8)` finds no page and returns the sentinel `0 ≠ 8`,
refuting `removei (insert v) = v` over all reachable states. -/
theorem C2_counterexample :
    (index_table.removei 3 (0 : Int) (index_table.insert 3 0 c1tab 8).1
        (index_table.insert 3 0 c1tab 8).2).2 = 0 ∧ (8 : Int) ≠ 0 := by
  decide

theorem C2_removal_symmetry_witness :
    (index_table.removei 2 (0 : Int) (index_table.init 2 0 1) 0).2 = 0 ∧
    (index_table.removei 2 (0 : Int)
        (index_table.insert 2 0 (index_table.init 2 0 1) 5).1
        (index_table.insert 2 0 (index_table.init 2 0 1) 5).2).2 = 5 ∧
    index_table.gett 2 (0 : Int)
      (index_table.removei 2 (0 : Int)
        (index_table.insert 2 0 (index_table.init 2 0 1) 5).1
        (index_table.insert 2 0 (index_table.init 2 0 1) 5).2).1 5 = -1 := by
  have h := C2_removal_symmetry 2 (0 : Int) (index_table.init 2 0 1)
    (by decide) (by decide)
    (by unfold index_table.wf index_bucket.wfb countNE; decide)
  refine ⟨?_, ?_, ?_⟩
  · have ha := h.1 0 ⟨[0, 0], 0, 0⟩ (by decide) (by decide) (by decide) (by decide)
    exact ha.trans (by decide)
  · exact (h.2 5 (by decide) (by decide)).1
  · exact (h.2 5 (by decide) (by decide)).2

/-- C3, amended: when `v` is stored in the page at position `pos` of the
scan order (no earlier page holds `v`) at first-match offset `O`, and
the resulting global identifier fits `int32_t` (page capacity below
`2^31`, page identifier `P` non-negative with `(P + 1) * S ≤ 2^31`),
`gett v` returns the global identifier `P * S + O`, not merely the
in-page offset. -/
theorem C3_gett_global {T : Type} [DecidableEq T] (S : Nat) (t0 : T)
    (tb : index_table T) (v : T) (pos O : Nat) (hS31 : S < 2 ^ 31)
    (hP0 : 0 ≤ (tb.buckets.getD pos index_table.dummy_bucket).bucket_index)
    (hPS : ((tb.buckets.getD pos index_table.dummy_bucket).bucket_index + 1)
        * S ≤ 2 ^ 31)
    (hlen : ∀ b ∈ tb.buckets, b.items.length = S)
    (hpos : pos < tb.buckets.length) (hO : O < S)
    (hvO : (tb.buckets.getD pos index_table.dummy_bucket).items.getD O t0 = v)
    (hOfirst : ∀ o, o < O →
      (tb.buckets.getD pos index_table.dummy_bucket).items.getD o t0 ≠ v)
    (hpagefirst : ∀ j, j < pos →
      v ∉ (tb.buckets.getD j index_table.dummy_bucket).items) :
    index_table.gett S t0 tb v =
      (tb.buckets.getD pos index_table.dummy_bucket).bucket_index * S + O := by
  have hbm : tb.buckets.getD pos index_table.dummy_bucket ∈ tb.buckets := by
    rw [getD_of_lt _ _ hpos]
    exact List.getElem_mem hpos
  have hlenp := hlen _ hbm
  have hOlen : O <
      (tb.buckets.getD pos index_table.dummy_bucket).items.length := by
    rw [hlenp]
    exact hO
  have hvmem : v ∈ (tb.buckets.getD pos index_table.dummy_bucket).items := by
    rw [← hvO, getD_of_lt _ _ hOlen]
    exact List.getElem_mem hOlen
  have hfi : (tb.buckets.getD pos index_table.dummy_bucket).items.findIdx
      (fun x => decide (x = v)) = O := by
    refine findIdx_at t0 hOlen ?_ ?_
    · rw [hvO]
      simp
    · intro o ho
      simp only [decide_eq_false_iff_not]
      exact hOfirst o ho
  have hitem := index_bucket.item_of_mem hS31 hlenp hvmem
  have hfind : tb.buckets.findIdx?
      (fun b => decide (index_bucket.item S b v ≠ -1)) = some pos := by
    refine findIdx?_at index_table.dummy_bucket hpos ?_ ?_
    · simp only [decide_eq_true_eq]
      rw [hitem.1]
      intro hcontra
      have : ((tb.buckets.getD pos index_table.dummy_bucket).items.findIdx
          (fun x => decide (x = v)) : Int) ≥ 0 := by positivity
      omega
    · intro j hj
      have hjm : tb.buckets.getD j index_table.dummy_bucket ∈ tb.buckets := by
        rw [getD_of_lt _ _ (Nat.lt_trans hj hpos)]
        exact List.getElem_mem (Nat.lt_trans hj hpos)
      simp only [decide_eq_false_iff_not, Decidable.not_not]
      exact index_bucket.item_eq_neg_one hS31 (hlen _ hjm) (hpagefirst j hj)
  rw [index_table.gett_some hfind, hitem.1, hfi]
  have e1 : (2 : Int) ^ 31 = 2147483648 := by norm_num
  have hOi : ((O : Nat) : Int) < (S : Int) := by exact_mod_cast hO
  have hps0 : 0 ≤ (tb.buckets.getD pos index_table.dummy_bucket).bucket_index
      * (S : Int) := mul_nonneg hP0 (by positivity)
  have hpse : ((tb.buckets.getD pos index_table.dummy_bucket).bucket_index + 1)
      * (S : Int) = (tb.buckets.getD pos index_table.dummy_bucket).bucket_index
        * S + S := by ring
  rw [toI32_of_range (by omega) (by omega)]
  ring

/-- C3 counterexample to the unbounded claim: with page capacity
`S = 2^16` and a page of identifier `P = 2^15` holding `7` at offset
`O = 0`, the global identifier `P * S + O = 2^31` does not fit
`int32_t`, and the source's narrowing makes `gett 7` return `-2^31`
instead. -/
theorem C3_counterexample :
    index_table.gett (2 ^ 16) (0 : Int)
        ⟨[⟨7 :: List.replicate (2 ^ 16 - 1) 0, 1, 2 ^ 15⟩], [], 2 ^ 15⟩ 7
      = -2 ^ 31 ∧
    ((2 : Int) ^ 15) * 2 ^ 16 + 0 = 2 ^ 31 ∧ -2 ^ 31 ≠ (2 : Int) ^ 31 := by
  have hfic : (((7 : Int) :: List.replicate (2 ^ 16 - 1) 0).findIdx
      fun x => decide (x = 7)) = 0 := by
    rw [List.findIdx_cons]
    rw [show (decide ((7 : Int) = 7)) = true from by decide]
    rfl
  have hfi2 : ((⟨7 :: List.replicate (2 ^ 16 - 1) (0 : Int), 1, 2 ^ 15⟩ :
      index_bucket Int).items.findIdx fun x => decide (x = 7)) = 0 := hfic
  have hitem : index_bucket.item (2 ^ 16)
      ⟨7 :: List.replicate (2 ^ 16 - 1) (0 : Int), 1, 2 ^ 15⟩ 7 = 0 := by
    rw [index_bucket.item_eq_of_findIdx hfi2]
    norm_num [toI32, toU64]
  have hfind : ([⟨7 :: List.replicate (2 ^ 16 - 1) (0 : Int), 1, 2 ^ 15⟩] :
      List (index_bucket Int)).findIdx?
        (fun b => decide (index_bucket.item (2 ^ 16) b 7 ≠ -1)) = some 0 := by
    rw [List.findIdx?_cons, hitem]
    norm_num
  refine ⟨?_, by norm_num, by norm_num⟩
  rw [@index_table.gett_some Int _ (2 ^ 16) 0 7
    ⟨[⟨7 :: List.replicate (2 ^ 16 - 1) 0, 1, 2 ^ 15⟩], [], 2 ^ 15⟩ 0 hfind]
  rw [List.getD_cons_zero, hitem]
  norm_num [toI32]

theorem C3_gett_global_witness :
    index_table.gett 2 (0 : Int) ⟨[⟨[5, 0], 1, 0⟩, ⟨[7, 6], 2, 1⟩], [], 1⟩ 6
      = 3 := by
  have h := C3_gett_global 2 (0 : Int)
    ⟨[⟨[5, 0], 1, 0⟩, ⟨[7, 6], 2, 1⟩], [], 1⟩ 6 1 1
    (by norm_num) (by decide) (by decide)
    (by decide) (by decide) (by decide) (by decide)
    (by intro o ho; interval_cases o <;> decide)
    (by intro j hj; interval_cases j <;> decide)
  exact h.trans (by decide)

/-- C9, amended: on a table with no pages `gett` returns `-1` and `geti`
returns the sentinel for every input; and for page capacities below
`2^31`, whenever a value is stored in no page, `gett` signals absence by
a negative identifier, never by a valid non-negative one.  (For larger
capacities the `int32_t` narrowing inside `item` can turn the absent
scan into a hit; see the counterexample.) -/
theorem C9_not_found {T : Type} [DecidableEq T] (S : Nat) (t0 : T) :
    (∀ (tb : index_table T) (v : T), tb.buckets = [] →
      index_table.gett S t0 tb v = -1) ∧
    (∀ (tb : index_table T) (id : Int), tb.buckets = [] →
      index_table.geti S t0 tb id = t0) ∧
    (∀ (tb : index_table T) (v : T), S < 2 ^ 31 →
      (∀ b ∈ tb.buckets, b.items.length = S ∧ v ∉ b.items) →
      index_table.gett S t0 tb v < 0 ∧ index_table.gett S t0 tb v = -1) := by
  refine ⟨?_, ?_, ?_⟩
  · intro tb v h
    apply index_table.gett_none
    rw [h]
    rfl
  · intro tb id h
    apply index_table.geti_none
    rw [h]
    rfl
  · intro tb v hS31 h
    have habs := @index_table.gett_absent T _ S t0 _ _ hS31 h
    refine ⟨?_, habs⟩
    rw [habs]
    norm_num

/-- C9 counterexample to the unbounded absence-signalling claim: with
page capacity `S = 2^32`, an empty page of identifier `0`, and the
absent value `7`, the `std::distance` result `2^32` narrows to the
`int32_t` `0 ≠ -1`, so the page scan reports a hit and `gett 7` returns
the valid non-negative identifier `0` instead of a negative sentinel. -/
theorem C9_counterexample :
    index_table.gett (2 ^ 32) (0 : Int)
        ⟨[⟨List.replicate (2 ^ 32) 0, 0, 0⟩], [], 0⟩ 7 = 0 ∧
    ¬ index_table.gett (2 ^ 32) (0 : Int)
        ⟨[⟨List.replicate (2 ^ 32) 0, 0, 0⟩], [], 0⟩ 7 < 0 := by
  have hfalse : ∀ x ∈ List.replicate (2 ^ 32) (0 : Int),
      (fun x : Int => decide (x = 7)) x = false := by
    intro x hx
    rw [List.eq_of_mem_replicate hx]
    decide
  have hfi : (List.replicate (2 ^ 32) (0 : Int)).findIdx
      (fun x => decide (x = 7)) = 2 ^ 32 := by
    have h := List.findIdx_eq_length_of_false hfalse
    rwa [List.length_replicate] at h
  have hfi2 : ((⟨List.replicate (2 ^ 32) (0 : Int), 0, 0⟩ :
      index_bucket Int).items.findIdx fun x => decide (x = 7)) = 2 ^ 32 := hfi
  have hitem : index_bucket.item (2 ^ 32)
      ⟨List.replicate (2 ^ 32) (0 : Int), 0, 0⟩ 7 = 0 := by
    rw [index_bucket.item_eq_of_findIdx hfi2]
    norm_num [toI32, toU64]
  have hfind : ([⟨List.replicate (2 ^ 32) (0 : Int), 0, 0⟩] :
      List (index_bucket Int)).findIdx?
        (fun b => decide (index_bucket.item (2 ^ 32) b 7 ≠ -1)) = some 0 := by
    rw [List.findIdx?_cons, hitem]
    norm_num
  have hg : index_table.gett (2 ^ 32) (0 : Int)
      ⟨[⟨List.replicate (2 ^ 32) 0, 0, 0⟩], [], 0⟩ 7 = 0 := by
    rw [@index_table.gett_some Int _ (2 ^ 32) 0 7
      ⟨[⟨List.replicate (2 ^ 32) 0, 0, 0⟩], [], 0⟩ 0 hfind]
    rw [List.getD_cons_zero, hitem]
    norm_num [toI32]
  refine ⟨hg, ?_⟩
  rw [hg]
  norm_num

theorem C9_not_found_witness :
    index_table.gett 2 (0 : Int) ⟨[], [], 0⟩ 7 = -1 ∧
    index_table.geti 2 (0 : Int) ⟨[], [], 0⟩ 5 = 0 ∧
    index_table.gett 2 (0 : Int) ⟨[⟨[1, 0], 1, 0⟩], [], 0⟩ 7 = -1 := by
  have h := C9_not_found (T := Int) 2 0
  exact ⟨h.1 _ 7 rfl, h.2.1 _ 5 rfl,
    (h.2.2 ⟨[⟨[1, 0], 1, 0⟩], [], 0⟩ 7 (by norm_num) (by decide)).2⟩

theorem bucket_rangeTable {T : Type} [DecidableEq T] (S : Nat) (t0 : T)
    (k : Nat) :
    index_table.bucket S t0 (rangeTable S t0 k) =
      (rangeTable S t0 (k + 1), k) := by
  cases k with
  | zero =>
      unfold rangeTable index_table.bucket
      simp [List.range_succ]
  | succ k =>
      unfold rangeTable index_table.bucket
      simp only [List.length_map, List.length_range]
      rw [if_pos (Nat.succ_pos k)]
      simp only [List.range_succ, List.map_append, List.map_cons, List.map_nil]
      have he : ((if (k + 1 : Nat) = 0 then (0 : Int)
          else ((k + 1 - 1 : Nat) : Int)) + 1) = ((k + 1 : Nat) : Int) := by
        simp
      have he2 : (if (k + 1 + 1 : Nat) = 0 then (0 : Int)
          else ((k + 1 + 1 - 1 : Nat) : Int)) = ((k + 1 : Nat) : Int) := by
        simp
      rw [he, he2]

theorem initAux_rangeTable {T : Type} [DecidableEq T] (S : Nat) (t0 : T) :
    ∀ (n k : Nat),
      index_table.initAux S t0 n (rangeTable S t0 k) = rangeTable S t0 (k + n)
  | 0, k => by simp [index_table.initAux]
  | n + 1, k => by
      rw [index_table.initAux, bucket_rangeTable]
      rw [initAux_rangeTable S t0 n (k + 1)]
      congr 1
      omega

theorem init_eq_rangeTable {T : Type} [DecidableEq T] (S : Nat) (t0 : T)
    (cache : Int) :
    index_table.init S t0 cache = rangeTable S t0 cache.toNat := by
  unfold index_table.init
  have h0 : ({ buckets := [], empty := [], bucket_hiindex := 0 } :
      index_table T) = rangeTable S t0 0 := by
    simp [rangeTable]
  rw [h0, initAux_rangeTable]
  simp

/-- C4: constructing with parameter `cache ≥ 0` pre-creates exactly
`cache` empty pages with the duplicate-free compact identifier sequence
`0, 1, …, cache-1`; `cache = 0` yields no pages. -/
theorem C4_construct {T : Type} [DecidableEq T] (S : Nat) (t0 : T)
    (cache : Int) (hc : 0 ≤ cache) :
    (index_table.init S t0 cache).buckets.length = cache.toNat ∧
    (index_table.init S t0 cache).buckets.map index_bucket.bucket_index
      = (List.range cache.toNat).map (fun i : Nat => (i : Int)) ∧
    ((index_table.init S t0 cache).buckets.map index_bucket.bucket_index).Nodup ∧
    ∀ b ∈ (index_table.init S t0 cache).buckets,
      b.filled = 0 ∧ b.items = List.replicate S t0 := by
  rw [init_eq_rangeTable]
  unfold rangeTable
  have hmap : ((List.range cache.toNat).map
        fun i : Nat => index_bucket.init S t0 (i : Int)).map
          index_bucket.bucket_index
      = (List.range cache.toNat).map (fun i : Nat => (i : Int)) := by
    rw [List.map_map]
    rfl
  refine ⟨by simp, hmap, ?_, ?_⟩
  · rw [hmap]
    exact (List.nodup_range cache.toNat).map fun a b h => by exact_mod_cast h
  · intro b hbm
    simp only [List.mem_map, List.mem_range] at hbm
    obtain ⟨i, hi, rfl⟩ := hbm
    exact ⟨rfl, rfl⟩

theorem C4_construct_witness :
    (index_table.init 2 (0 : Int) 3).buckets.length = (3 : Int).toNat ∧
    (index_table.init 2 (0 : Int) 3).buckets.map index_bucket.bucket_index
      = (List.range (3 : Int).toNat).map (fun i : Nat => (i : Int)) ∧
    ((index_table.init 2 (0 : Int) 3).buckets.map
        index_bucket.bucket_index).Nodup ∧
    ∀ b ∈ (index_table.init 2 (0 : Int) 3).buckets,
      b.filled = 0 ∧ b.items = List.replicate 2 0 :=
  C4_construct 2 0 3 (by decide)

/-- C5: `removei` targets exactly the page with identifier `id / S`:
with no such page it returns the sentinel and leaves the table
unchanged, and pages with a different identifier always survive
untouched.  (Stated for identifiers in the non-negative `int32` range;
the spec leaves negative identifiers unspecified.) -/
theorem C5_removei_target {T : Type} [DecidableEq T] (S : Nat) (t0 : T)
    (tb : index_table T) (id : Int) (hS : 0 < S) (hid0 : 0 ≤ id)
    (hid1 : id < 2 ^ 31)
    (hbr : ∀ b ∈ tb.buckets, 0 ≤ b.bucket_index ∧ b.bucket_index < 2 ^ 31) :
    ((∀ b ∈ tb.buckets, b.bucket_index ≠ ((id.toNat / S : Nat) : Int)) →
      index_table.removei S t0 tb id = (tb, t0)) ∧
    (∀ b ∈ tb.buckets, b.bucket_index ≠ ((id.toNat / S : Nat) : Int) →
      b ∈ (index_table.removei S t0 tb id).1.buckets) := by
  have htid : toU64 id = id.toNat := by
    refine toU64_of_nonneg hid0 ?_
    have : (2 : Int) ^ 31 < 2 ^ 64 := by norm_num
    omega
  constructor
  · intro h
    apply index_table.removei_none
    rw [List.findIdx?_eq_none_iff]
    intro b hbm
    obtain ⟨hb0, hb1⟩ := hbr b hbm
    simp only [decide_eq_false_iff_not]
    rw [htid, toU64_small hb0 (by omega)]
    intro heq
    exact h b hbm (by omega)
  · intro b hbm hne
    cases hfi : tb.buckets.findIdx?
        (fun x => decide (toU64 x.bucket_index = toU64 id / S)) with
    | none =>
        rw [index_table.removei_none hfi]
        exact hbm
    | some pos =>
        have hfs := hfi
        rw [List.findIdx?_eq_some_iff_getElem] at hfs
        obtain ⟨hposlt, hptrue, hbef⟩ := hfs
        obtain ⟨hp0, hp1⟩ := hbr _ (List.getElem_mem hposlt)
        have hpq : tb.buckets[pos].bucket_index = ((id.toNat / S : Nat) : Int) := by
          simp only [decide_eq_true_eq] at hptrue
          rw [htid, toU64_small hp0 (by omega)] at hptrue
          omega
        obtain ⟨i, hilt, hieq⟩ := List.getElem_of_mem hbm
        have hip : i ≠ pos := by
          intro hh
          subst hh
          rw [hieq] at hpq
          exact hne hpq
        rw [index_table.removei_some hfi]
        by_cases hc : (index_bucket.remove S t0
            (tb.buckets.getD pos index_table.dummy_bucket)
            ((tb.buckets.getD pos index_table.dummy_bucket).items.getD
              (toU64 id % S) t0)).1.filled ≤ 0
        · rw [if_pos hc]
          simp only []
          rw [List.mem_eraseIdx_iff_getElem]
          exact ⟨i, hilt, hip, hieq⟩
        · rw [if_neg hc]
          simp only []
          rw [List.mem_iff_getElem]
          refine ⟨i, ?_, ?_⟩
          · rw [List.length_set]
            exact hilt
          · rw [List.getElem_set_ne (fun hh => hip hh.symm)]
            exact hieq

theorem C5_removei_target_witness :
    index_table.removei 2 (0 : Int) ⟨[⟨[9, 0], 1, 0⟩], [], 0⟩ 5 =
        (⟨[⟨[9, 0], 1, 0⟩], [], 0⟩, 0) ∧
    (⟨[9, 0], 1, 0⟩ : index_bucket Int) ∈
      (index_table.removei 2 (0 : Int) ⟨[⟨[9, 0], 1, 0⟩], [], 0⟩ 5).1.buckets := by
  have h := C5_removei_target 2 (0 : Int) ⟨[⟨[9, 0], 1, 0⟩], [], 0⟩ 5
    (by decide) (by decide) (by decide) (by decide)
  exact ⟨h.1 (by decide), h.2 _ (by decide) (by decide)⟩

/-- C7: code bug.  The claim asserts `filled` always equals the number
of non-sentinel slots with `0 ≤ filled ≤ S` after every public
operation, but `removei` at an identifier whose slot holds the sentinel
calls the bucket's `remove(T())`, which decrements the `size_t` fill
counter without vacating any slot.  On `index_table<int, 2>` constructed
with `cache = 1`, the public call `removei(0)` drives the single
bucket's counter from 0 to `2^64 - 1` while its non-sentinel slot count
stays 0. -/
theorem C7_fill_invariant_bug :
    ((index_table.removei 2 (0 : Int) (index_table.init 2 0 1) 0).1.buckets.map
        index_bucket.filled) = [2 ^ 64 - 1] ∧
    ((index_table.removei 2 (0 : Int) (index_table.init 2 0 1) 0).1.buckets.map
        (fun b => countNE (0 : Int) b.items)) = [0] := by
  decide

/-- C10: code bug.  The claim reads the guard of `index_bucket::remove`
as ruling out the not-found case, but the guard is `index >= 0`, which
is always true (`std::distance` yields a value in `[0, S]`); for an
absent value the function therefore stores to `items[S]` — one past the
array — and decrements `filled`.  Evaluating the model: removing `5`
from a fresh `index_bucket<int, 2>` (all slots the sentinel `0`,
`filled = 0`) returns `-1` as documented, yet wraps the fill counter to
`2^64 - 1` instead of leaving it at 0. -/
theorem C10_remove_guard_bug :
    (index_bucket.remove 2 (0 : Int) ⟨[0, 0], 0, 0⟩ 5).1.filled = 2 ^ 64 - 1 ∧
    (index_bucket.remove 2 (0 : Int) ⟨[0, 0], 0, 0⟩ 5).2 = -1 ∧
    (index_bucket.remove 2 (0 : Int) ⟨[0, 0], 0, 0⟩ 5).1.filled ≠
      (⟨[0, 0], 0, 0⟩ : index_bucket Int).filled := by
  decide

/-!
## Compactness of insertion-only tables
-/

theorem sum_replicate_nat (q s : Nat) : (List.replicate q s).sum = q * s := by
  induction q with
  | zero => simp
  | succ q ih =>
      rw [List.replicate_succ, List.sum_cons, ih, Nat.succ_mul]
      omega

theorem set_append_len {α : Type _} (l1 l2 : List α) (a : α) :
    (l1 ++ l2).set l1.length a = l1 ++ l2.set 0 a := by
  induction l1 with
  | nil => rfl
  | cons x l ih =>
      show x :: ((l ++ l2).set l.length a) = x :: (l ++ l2.set 0 a)
      rw [ih]

theorem set_append_len_eq {α : Type _} (l1 l2 : List α) (a : α) {i : Nat}
    (h : i = l1.length) : (l1 ++ l2).set i a = l1 ++ l2.set 0 a := by
  subst h
  exact set_append_len l1 l2 a

theorem succ_div_mod_mid {S q r n : Nat} (hS : 0 < S) (hn : S * q + r = n)
    (hr : r + 1 < S) : (n + 1) / S = q ∧ (n + 1) % S = r + 1 := by
  have h1 : n + 1 = S * q + (r + 1) := by omega
  constructor
  · rw [h1, Nat.mul_add_div hS, Nat.div_eq_of_lt hr]
    omega
  · rw [h1, Nat.mul_add_mod, Nat.mod_eq_of_lt hr]

theorem succ_div_mod_full {S q r n : Nat} (hS : 0 < S) (hn : S * q + r = n)
    (hr : r + 1 = S) : (n + 1) / S = q + 1 ∧ (n + 1) % S = 0 := by
  have hexp : S * (q + 1) = S * q + S := by ring
  have h1 : n + 1 = S * (q + 1) := by omega
  constructor
  · rw [h1, Nat.mul_div_cancel_left _ hS]
  · rw [h1, Nat.mul_mod_right]

theorem ceil_div_eq {S : Nat} (hS : 0 < S) (n : Nat) :
    (n + S - 1) / S = n / S + (if n % S = 0 then 0 else 1) := by
  have hq := Nat.div_add_mod n S
  have hrlt : n % S < S := Nat.mod_lt n hS
  by_cases hr : n % S = 0
  · have h1 : n + S - 1 = S * (n / S) + (S - 1) := by omega
    have hlt : S - 1 < S := by omega
    rw [h1, Nat.mul_add_div hS, Nat.div_eq_of_lt hlt, if_pos hr]
  · have hexp : S * (n / S + 1) = S * (n / S) + S := by ring
    have h1 : n + S - 1 = S * (n / S) + S + (n % S - 1) := by omega
    have hlt : n % S - 1 < S := by omega
    rw [h1, ← hexp, Nat.mul_add_div hS, Nat.div_eq_of_lt hlt, if_neg hr]

theorem count_eq_sum_aux {T : Type} [DecidableEq T] :
    ∀ (l : List (index_bucket T)) (m : Nat),
      m + (l.map index_bucket.filled).sum < 2 ^ 31 →
      l.foldl (fun val b => toI32 (val + (b.filled : Int))) (m : Int)
        = ((m + (l.map index_bucket.filled).sum : Nat) : Int)
  | [], m, _ => by simp
  | b :: l, m, hm => by
      rw [List.foldl_cons]
      have hmb : m + b.filled < 2 ^ 31 := by
        simp only [List.map_cons, List.sum_cons] at hm
        omega
      have hc : ((m + b.filled : Nat) : Int) = (m : Int) + (b.filled : Int) := by
        push_cast
        ring
      have hstep : toI32 ((m : Int) + (b.filled : Int))
          = ((m + b.filled : Nat) : Int) := by
        rw [← hc]
        exact toI32_natCast hmb
      have hml : m + b.filled + (l.map index_bucket.filled).sum < 2 ^ 31 := by
        simp only [List.map_cons, List.sum_cons] at hm
        omega
      rw [hstep, count_eq_sum_aux l (m + b.filled) hml]
      have he : m + b.filled + (l.map index_bucket.filled).sum
          = m + ((b :: l).map index_bucket.filled).sum := by
        simp only [List.map_cons, List.sum_cons]
        omega
      rw [he]

theorem count_eq_sum {T : Type} [DecidableEq T] (tb : index_table T)
    (h : (tb.buckets.map index_bucket.filled).sum < 2 ^ 31) :
    index_table.count tb = (tb.buckets.map index_bucket.filled).sum := by
  unfold index_table.count
  have h0 := count_eq_sum_aux tb.buckets 0 (by omega)
  rw [Nat.cast_zero] at h0
  rw [h0, toU64_natCast (by
    have e : (2 : Nat) ^ 31 < 2 ^ 64 := by norm_num
    omega)]
  omega

theorem count_eq_fold_filled {T : Type} [DecidableEq T] (tb : index_table T) :
    index_table.count tb
      = toU64 ((tb.buckets.map index_bucket.filled).foldl
          (fun (val : Int) (k : Nat) => toI32 (val + (k : Int))) 0) := by
  unfold index_table.count
  rw [List.foldl_map]

theorem foldl_toI32_replicate :
    ∀ (m : Nat) (a : Int),
      (List.replicate m (1 : Nat)).foldl
          (fun (val : Int) (k : Nat) => toI32 (val + (k : Int))) (toI32 a)
        = toI32 (a + m)
  | 0, a => by simp
  | m + 1, a => by
      rw [List.replicate_succ, List.foldl_cons]
      have h1 : toI32 (toI32 a + ((1 : Nat) : Int)) = toI32 (a + 1) := by
        rw [Nat.cast_one]
        exact toI32_add_left a 1
      rw [h1, foldl_toI32_replicate m (a + 1)]
      have he : a + 1 + (m : Int) = a + ((m + 1 : Nat) : Int) := by
        push_cast
        ring
      rw [he]

/-- One insertion of a non-sentinel value advances the fill-shape of an
insertion-only table from `n` to `n + 1` stored values. -/
theorem fillShape_insert {T : Type} [DecidableEq T] {S : Nat} {t0 v : T}
    {n : Nat} {tb : index_table T} (hS : 0 < S) (hS31 : S < 2 ^ 31)
    (hv : v ≠ t0) (hsh : fillShape S t0 n tb) :
    fillShape S t0 (n + 1) (index_table.insert S t0 tb v).1 := by
  obtain ⟨hemp, hbw, hmap⟩ := hsh
  have hq := Nat.div_add_mod n S
  have hfirst : index_table.first S tb
      = (tb.buckets.map index_bucket.filled).findIdx?
          (fun m => decide (m < S)) := by
    unfold index_table.first
    rw [List.findIdx?_map]
    rfl
  by_cases hr : n % S = 0
  · -- every existing bucket is full: a fresh bucket receives the value
    have hmap0 : tb.buckets.map index_bucket.filled
        = List.replicate (n / S) S := by
      rw [hmap, hr]
      simp
    have hnone : index_table.first S tb = none := by
      rw [hfirst, hmap0]
      simp
    have hblen : tb.buckets.length = n / S := by
      have := congrArg List.length hmap0
      simpa using this
    have hbuck : ∃ (x hi2 : Int),
        index_table.bucket S t0 tb
          = (⟨tb.buckets ++ [index_bucket.init S t0 x], [], hi2⟩,
            tb.buckets.length) := by
      unfold index_table.bucket
      rw [hemp]
      by_cases hlen : 0 < tb.buckets.length
      · rw [if_pos hlen]
        exact ⟨tb.bucket_hiindex + 1, tb.bucket_hiindex + 1, rfl⟩
      · rw [if_neg hlen]
        exact ⟨0, tb.bucket_hiindex, rfl⟩
    obtain ⟨x, hi2, hbk⟩ := hbuck
    have hgdnew : (index_table.bucket S t0 tb).1.buckets.getD
        (index_table.bucket S t0 tb).2 index_table.dummy_bucket
        = index_bucket.init S t0 x := by
      rw [hbk, getD_of_lt _ _ (by simp)]
      rw [List.getElem_append_right (le_refl _)]
      simp
    have hinitlen : (index_bucket.init S t0 x).items.length = S := by
      unfold index_bucket.init
      simp
    have hinitfc : (index_bucket.init S t0 x).filled
        = countNE t0 (index_bucket.init S t0 x).items := by
      unfold index_bucket.init
      simp [countNE_replicate]
    have hinitcnt : countNE t0 (index_bucket.init S t0 x).items < S := by
      unfold index_bucket.init
      simp only []
      rw [countNE_replicate]
      exact hS
    obtain ⟨k, hkS, hslot, hins⟩ :=
      index_bucket.insert_found (v := v) hinitlen hinitfc hinitcnt hS31
    refine ⟨?_, ?_, ?_⟩
    · rw [index_table.insert_none hnone, hbk]
    · intro b hbm
      rw [index_table.insert_none hnone] at hbm
      simp only [] at hbm
      rw [hgdnew, hins] at hbm
      rcases List.mem_or_eq_of_mem_set hbm with hmo | hme
      · rw [hbk] at hmo
        simp only [] at hmo
        rcases List.mem_append.mp hmo with hmol | hmor
        · exact hbw b hmol
        · have : b = index_bucket.init S t0 x := by simpa using hmor
          subst this
          exact ⟨hinitlen, hinitfc.symm ▸ hinitfc⟩
      · subst hme
        constructor
        · simp only [List.length_set]
          exact hinitlen
        · simp only []
          rw [countNE_set_fresh (by rw [hinitlen]; exact hkS)
            (hslot (by rw [hinitlen]; exact hkS)) hv]
    · rw [index_table.insert_none hnone]
      simp only []
      rw [hgdnew, hins, hbk]
      simp only []
      rw [List.map_set, List.map_append]
      have hlm : (tb.buckets.map index_bucket.filled).length
          = tb.buckets.length := by simp
      have hset : ((tb.buckets.map index_bucket.filled) ++
          (List.map index_bucket.filled [index_bucket.init S t0 x])).set
            tb.buckets.length
            (countNE t0 (index_bucket.init S t0 x).items + 1)
          = (tb.buckets.map index_bucket.filled) ++ [1] := by
        rw [← hlm, set_append_len]
        unfold index_bucket.init
        simp only [List.map_cons, List.map_nil]
        rw [countNE_replicate]
        rfl
      rw [hset, hmap0]
      by_cases hS1 : S = 1
      · subst hS1
        have h1 : (n + 1) / 1 = n / 1 + 1 := by omega
        have h2 : (n + 1) % 1 = 0 := by omega
        rw [h1, h2, if_pos rfl, List.append_nil, List.replicate_succ']
      · have h12 : 1 < S := by omega
        obtain ⟨hd, hm⟩ := succ_div_mod_mid (q := n / S) (r := 0) (n := n) hS
          (by omega) (by omega)
        rw [hd, hm, if_neg (by omega)]
  · -- the last bucket still has room and receives the value
    have hrlt : n % S < S := Nat.mod_lt n hS
    have hmapr : tb.buckets.map index_bucket.filled
        = List.replicate (n / S) S ++ [n % S] := by
      rw [hmap, if_neg hr]
    have hblen : tb.buckets.length = n / S + 1 := by
      have := congrArg List.length hmapr
      simpa using this
    have hqlt : n / S < tb.buckets.length := by omega
    have hfq : index_table.first S tb = some (n / S) := by
      rw [hfirst, hmapr, List.findIdx?_append]
      have hrep : (List.replicate (n / S) S).findIdx?
          (fun m => decide (m < S)) = none := by
        simp
      rw [hrep]
      simp [hrlt]
    have hbqf : (tb.buckets.getD (n / S) index_table.dummy_bucket).filled
        = n % S := by
      rw [getD_of_lt _ _ hqlt]
      have h1 : (tb.buckets.map index_bucket.filled)[n / S]? = some (n % S) := by
        rw [hmapr, List.getElem?_append_right (by simp)]
        simp
      have h2 : (tb.buckets.map index_bucket.filled)[n / S]?
          = some (tb.buckets[n / S]).filled := by
        rw [List.getElem?_map, List.getElem?_eq_getElem hqlt]
        rfl
      rw [h1] at h2
      exact (Option.some.injEq _ _).mp h2.symm
    have hbqm : tb.buckets.getD (n / S) index_table.dummy_bucket
        ∈ tb.buckets := by
      rw [getD_of_lt _ _ hqlt]
      exact List.getElem_mem hqlt
    obtain ⟨hlenq, hfcq⟩ := hbw _ hbqm
    have hcntq : countNE t0
        (tb.buckets.getD (n / S) index_table.dummy_bucket).items < S := by
      rw [← hfcq, hbqf]
      exact hrlt
    obtain ⟨k, hkS, hslot, hins⟩ :=
      index_bucket.insert_found (v := v) hlenq hfcq hcntq hS31
    refine ⟨?_, ?_, ?_⟩
    · rw [index_table.insert_some hfq]
      exact hemp
    · intro b hbm
      rw [index_table.insert_some hfq] at hbm
      simp only [] at hbm
      rw [hins] at hbm
      rcases List.mem_or_eq_of_mem_set hbm with hmo | hme
      · exact hbw b hmo
      · subst hme
        constructor
        · simp only [List.length_set]
          exact hlenq
        · simp only []
          rw [countNE_set_fresh (by rw [hlenq]; exact hkS)
            (hslot (by rw [hlenq]; exact hkS)) hv]
    · rw [index_table.insert_some hfq]
      simp only []
      rw [hins]
      simp only []
      rw [List.map_set]
      have hcnt1 : countNE t0
          (tb.buckets.getD (n / S) index_table.dummy_bucket).items + 1
          = n % S + 1 := by
        rw [← hfcq, hbqf]
      rw [hcnt1, hmapr]
      have hlrep : (List.replicate (n / S) S).length = n / S := by simp
      have hset : (List.replicate (n / S) S ++ [n % S]).set (n / S) (n % S + 1)
          = List.replicate (n / S) S ++ [n % S + 1] := by
        rw [set_append_len_eq _ _ _ (by simp)]
        rfl
      rw [hset]
      by_cases hr1 : n % S + 1 = S
      · obtain ⟨hd, hm⟩ := succ_div_mod_full hS hq hr1
        rw [hd, hm, if_pos rfl, List.append_nil, List.replicate_succ', hr1]
      · obtain ⟨hd, hm⟩ := succ_div_mod_mid hS hq (by omega)
        rw [hd, hm, if_neg (by omega)]

theorem insertList_fillShape {T : Type} [DecidableEq T] {S : Nat} {t0 : T}
    (hS : 0 < S) (hS31 : S < 2 ^ 31) :
    ∀ (vs : List T) (n : Nat) (tb : index_table T), (∀ v ∈ vs, v ≠ t0) →
      fillShape S t0 n tb →
      fillShape S t0 (n + vs.length) (insertList S t0 tb vs)
  | [], n, tb, _, hsh => by simpa using hsh
  | v :: vs, n, tb, hvs, hsh => by
      have h1 := fillShape_insert hS hS31 (hvs v (List.mem_cons_self v vs)) hsh
      have h2 := insertList_fillShape hS hS31 vs (n + 1) _
        (fun w hw => hvs w (List.mem_cons_of_mem _ hw)) h1
      rw [insertList]
      simp only [List.length_cons]
      rw [show n + (vs.length + 1) = n + 1 + vs.length from by omega]
      exact h2

/-- C8, amended: inserting `n < 2^31` non-sentinel values into a table
constructed with `cache = 0` and page capacity `S < 2^31` (no removals)
gives `count() = n` and exactly `⌈n / S⌉` pages.  The bounds keep the
`int` accumulator of `count()` and the `int32_t` slot positions exact;
see the counterexample for `n = 2^31`. -/
theorem C8_compactness {T : Type} [DecidableEq T] (S : Nat) (t0 : T)
    (vs : List T) (hS : 0 < S) (hS31 : S < 2 ^ 31)
    (hn : vs.length < 2 ^ 31) (hvs : ∀ v ∈ vs, v ≠ t0) :
    index_table.count (insertList S t0 (index_table.init S t0 0) vs)
        = vs.length ∧
    (insertList S t0 (index_table.init S t0 0) vs).buckets.length
        = (vs.length + S - 1) / S := by
  have h0 : fillShape S t0 0 (index_table.init S t0 0) := by
    refine ⟨rfl, ?_, ?_⟩
    · intro b hbm
      simp [index_table.init, index_table.initAux] at hbm
    · simp [index_table.init, index_table.initAux, Nat.zero_div, Nat.zero_mod]
  have hfin := insertList_fillShape hS hS31 vs 0 _ hvs h0
  rw [Nat.zero_add] at hfin
  obtain ⟨hemp, hbw, hmap⟩ := hfin
  have hq := Nat.div_add_mod vs.length S
  have hc : (vs.length / S) * S = S * (vs.length / S) := Nat.mul_comm _ _
  have hsum : ((insertList S t0 (index_table.init S t0 0) vs).buckets.map
      index_bucket.filled).sum = vs.length := by
    rw [hmap, List.sum_append, sum_replicate_nat]
    by_cases hr : vs.length % S = 0
    · rw [if_pos hr]
      simp only [List.sum_nil]
      omega
    · rw [if_neg hr]
      simp only [List.sum_cons, List.sum_nil]
      omega
  constructor
  · rw [count_eq_sum _ (by omega), hsum]
  · have hlen := congrArg List.length hmap
    simp only [List.length_map, List.length_append, List.length_replicate]
      at hlen
    rw [ceil_div_eq hS, hlen]
    by_cases hr : vs.length % S = 0
    · simp [hr]
    · simp [hr]

/-- C8 counterexample to the unbounded claim: after `2^31` insertions of
the value `1` with page capacity `S = 1`, the `int` accumulator of
`count()` wraps at the last step (`toI32 (2^31) = -2^31`), and the final
`int`-to-`size_t` conversion returns `2^64 - 2^31` instead of `2^31`. -/
theorem C8_counterexample :
    index_table.count (insertList 1 (0 : Int) (index_table.init 1 0 0)
        (List.replicate (2 ^ 31) 1))
      = 2 ^ 64 - 2 ^ 31 ∧
    (2 : Nat) ^ 64 - 2 ^ 31 ≠ (List.replicate (2 ^ 31) (1 : Int)).length := by
  have h0 : fillShape 1 (0 : Int) 0 (index_table.init 1 0 0) := by
    refine ⟨rfl, ?_, ?_⟩
    · intro b hbm
      simp [index_table.init, index_table.initAux] at hbm
    · simp [index_table.init, index_table.initAux]
  have hvs : ∀ v ∈ List.replicate (2 ^ 31) (1 : Int), v ≠ 0 := by
    intro v hv
    rw [List.eq_of_mem_replicate hv]
    norm_num
  have hfin := insertList_fillShape (by norm_num) (by norm_num)
    (List.replicate (2 ^ 31) (1 : Int)) 0 _ hvs h0
  rw [Nat.zero_add, List.length_replicate] at hfin
  obtain ⟨hemp, hbw, hmap⟩ := hfin
  have hmap1 : (insertList 1 (0 : Int) (index_table.init 1 0 0)
      (List.replicate (2 ^ 31) 1)).buckets.map index_bucket.filled
      = List.replicate (2 ^ 31) 1 := by
    rw [hmap]
    norm_num
  constructor
  · rw [count_eq_fold_filled, hmap1]
    have hstart : ((0 : Int)) = toI32 0 := by norm_num [toI32]
    rw [hstart, foldl_toI32_replicate (2 ^ 31) 0]
    norm_num [toI32, toU64]
    decide
  · rw [List.length_replicate]
    norm_num

theorem C8_compactness_witness :
    index_table.count (insertList 2 (0 : Int) (index_table.init 2 0 0)
        [5, 6, 7]) = 3 ∧
    (insertList 2 (0 : Int) (index_table.init 2 0 0)
        [5, 6, 7]).buckets.length = 2 := by
  have h := C8_compactness 2 (0 : Int) [5, 6, 7] (by decide) (by norm_num)
    (by norm_num) (by decide)
  exact ⟨h.1, h.2⟩
